import Mathlib

/-!
Verification development for the Cryus Solana contracts
(`src/contracts/solana/token/src/lib.rs` and `src/contracts/solana/nft/lib.rs`).

The Rust programs are shallowly embedded: u8 bytes become `Fin 256`, u64
values become `Nat` bounded by `2 ^ 64` with explicitly checked arithmetic,
`Pubkey` becomes a length-32 byte list, account buffers become `List Byte`,
and each `process_*` entry point becomes a total Lean function returning
`Except ProgramError` of the freshly committed buffer contents.  An error
result corresponds to the invocation aborting with no committed mutation
(the Solana runtime rolls back every write of a failing instruction).
-/

abbrev Byte := Fin 256

/-- A Solana `Pubkey`: exactly 32 bytes (the Rust type is `[u8; 32]`). -/
abbrev Pubkey := { l : List Byte // l.length = 32 }

/-- Little-endian encoding of a natural number into `k` bytes, as produced
by Rust's `u64::to_le_bytes` (with `k = 8`) on `n < 2 ^ 64`. -/
def natToLeBytes : Nat → Nat → List Byte
  | 0, _ => []
  | k + 1, n => ⟨n % 256, Nat.mod_lt n (by decide)⟩ :: natToLeBytes k (n / 256)

/-- Little-endian decoding, as performed by Rust's `u64::from_le_bytes`. -/
def leBytesToNat : List Byte → Nat
  | [] => 0
  | b :: bs => b.val + 256 * leBytesToNat bs

@[simp] theorem natToLeBytes_length (k n : Nat) : (natToLeBytes k n).length = k := by
  induction k generalizing n with
  | zero => rfl
  | succ k ih => simp [natToLeBytes, ih]

theorem leBytesToNat_natToLeBytes (k n : Nat) (h : n < 256 ^ k) :
    leBytesToNat (natToLeBytes k n) = n := by
  induction k generalizing n with
  | zero => simp [natToLeBytes, leBytesToNat]; omega
  | succ k ih =>
    have hdiv : n / 256 < 256 ^ k := by
      rw [Nat.div_lt_iff_lt_mul (by norm_num)]
      calc n < 256 ^ (k + 1) := h
        _ = 256 ^ k * 256 := by ring
    simp [natToLeBytes, leBytesToNat, ih _ hdiv]
    omega

/-- The error kinds of `solana_program::program_error::ProgramError` that the
two programs can return. -/
inductive ProgramError where
  | InvalidInstructionData
  | IncorrectProgramId
  | MissingRequiredSignature
  | AccountNotRentExempt
  | AccountAlreadyInitialized
  | InvalidAccountData
  | InvalidArgument
  | InsufficientFunds
  | UninitializedAccount
  | NotEnoughAccountKeys
  | BorshIoError
  deriving DecidableEq, Repr

/-- `TokenAccount` record (token program, `src/lib.rs` lines 36-42):
`is_initialized: bool`, `owner: Pubkey`, `amount: u64`. -/
structure TokenAccount where
  isInitialized : Bool
  owner : Pubkey
  amount : Nat
  deriving DecidableEq, Repr

/-- `Mint` record (token program, `src/lib.rs` lines 44-52):
`is_initialized: bool`, `mint_authority: Pubkey`, `supply: u64`,
`decimals: u8`. -/
structure Mint where
  isInitialized : Bool
  mintAuthority : Pubkey
  supply : Nat
  decimals : Byte
  deriving DecidableEq, Repr

namespace TokenAccount

/-- `TokenAccount::LEN = size_of::<TokenAccount>()`.  With `#[repr(C)]` the
layout is: `bool` at offset 0, `[u8; 32]` at 1..33, then 7 bytes padding so
the `u64` is 8-aligned at 40..48, giving size 48. -/
def LEN : Nat := 48

/-- The bytes written by `pack_into_slice`: byte 0 the flag, 1..33 the
owner, 33..41 the little-endian amount (41 bytes; the rest of the 48-byte
slice is left untouched). -/
def encodeBytes (a : TokenAccount) : List Byte :=
  (if a.isInitialized then (1 : Byte) else 0) :: (a.owner.val ++ natToLeBytes 8 a.amount)

@[simp] theorem encode_length41 (a : TokenAccount) : a.encodeBytes.length = 41 := by
  simp [encodeBytes, a.owner.property]

/-- `Pack::unpack_unchecked` for `TokenAccount`: the length guard
(`input.len() != Self::LEN` → `InvalidAccountData`) from the
`solana_program` `Pack` trait, followed by `unpack_from_slice`
(`src/lib.rs` lines 72-82), which reads byte 0, bytes 1..33 and
bytes 33..41. -/
def unpackUnchecked (src : List Byte) : Except ProgramError TokenAccount :=
  if h : src.length = LEN then
    .ok { isInitialized := src.getD 0 0 != 0
          owner := ⟨(src.drop 1).take 32, by simp [h, LEN]⟩
          amount := leBytesToNat ((src.drop 33).take 8) }
  else .error .InvalidAccountData

/-- `Pack::unpack` for `TokenAccount`: `unpack_unchecked` followed by the
`is_initialized` gate (`UninitializedAccount` when false). -/
def unpack (src : List Byte) : Except ProgramError TokenAccount :=
  match unpackUnchecked src with
  | .error e => .error e
  | .ok a => if a.isInitialized then .ok a else .error .UninitializedAccount

/-- `Pack::pack` for `TokenAccount`: the destination-length guard
(`dst.len() != Self::LEN` → `InvalidAccountData`) then `pack_into_slice`
(`src/lib.rs` lines 84-88), which overwrites bytes 0..41 and leaves the
trailing padding bytes of the slice unchanged. -/
def pack (a : TokenAccount) (dst : List Byte) : Except ProgramError (List Byte) :=
  if dst.length = LEN then .ok (a.encodeBytes ++ dst.drop 41)
  else .error .InvalidAccountData

end TokenAccount

namespace Mint

/-- `Mint::LEN = size_of::<Mint>()`.  With `#[repr(C)]`: `bool` at 0,
`[u8; 32]` at 1..33, padding to 40, `u64` at 40..48, `u8` at 48, then
padding to the 8-byte alignment, giving size 56. -/
def LEN : Nat := 56

/-- The bytes written by `pack_into_slice` for `Mint`: byte 0 the flag,
1..33 the authority, 33..41 the little-endian supply, byte 41 the decimals
(42 bytes; the rest of the 56-byte slice is left untouched). -/
def encodeBytes (m : Mint) : List Byte :=
  (if m.isInitialized then (1 : Byte) else 0) ::
    (m.mintAuthority.val ++ (natToLeBytes 8 m.supply ++ [m.decimals]))

@[simp] theorem encode_length42 (m : Mint) : m.encodeBytes.length = 42 := by
  simp [encodeBytes, m.mintAuthority.property]

/-- `Pack::unpack_unchecked` for `Mint`: the length guard then
`unpack_from_slice` (`src/lib.rs` lines 94-105), reading byte 0,
bytes 1..33, bytes 33..41 and byte 41. -/
def unpackUnchecked (src : List Byte) : Except ProgramError Mint :=
  if h : src.length = LEN then
    .ok { isInitialized := src.getD 0 0 != 0
          mintAuthority := ⟨(src.drop 1).take 32, by simp [h, LEN]⟩
          supply := leBytesToNat ((src.drop 33).take 8)
          decimals := src.getD 41 0 }
  else .error .InvalidAccountData

/-- `Pack::unpack` for `Mint`: `unpack_unchecked` plus the
`is_initialized` gate. -/
def unpack (src : List Byte) : Except ProgramError Mint :=
  match unpackUnchecked src with
  | .error e => .error e
  | .ok m => if m.isInitialized then .ok m else .error .UninitializedAccount

/-- `Pack::pack` for `Mint`: destination-length guard then
`pack_into_slice` (`src/lib.rs` lines 107-112), overwriting bytes 0..42. -/
def pack (m : Mint) (dst : List Byte) : Except ProgramError (List Byte) :=
  if dst.length = LEN then .ok (m.encodeBytes ++ dst.drop 42)
  else .error .InvalidAccountData

end Mint

theorem tokenAccount_unpackUnchecked_encode (a : TokenAccount) (rest : List Byte)
    (ha : a.amount < 2 ^ 64) (hr : rest.length = 7) :
    TokenAccount.unpackUnchecked (a.encodeBytes ++ rest) = .ok a := by
  have hlen : (a.encodeBytes ++ rest).length = TokenAccount.LEN := by
    simp [hr, TokenAccount.LEN]
  rw [TokenAccount.unpackUnchecked, dif_pos hlen]
  have howner : a.owner.val.length = 32 := a.owner.property
  congr 1
  cases a with
  | mk ini owner amount =>
    simp only [TokenAccount.encodeBytes] at *
    have hdrop1 : (((if ini then (1 : Byte) else 0) :: (owner.val ++ natToLeBytes 8 amount)) ++ rest).drop 1
        = owner.val ++ (natToLeBytes 8 amount ++ rest) := by
      simp
    have hdrop33 : (((if ini then (1 : Byte) else 0) :: (owner.val ++ natToLeBytes 8 amount)) ++ rest).drop 33
        = natToLeBytes 8 amount ++ rest := by
      simp only [List.cons_append, List.drop_succ_cons, List.append_assoc]
      rw [List.drop_append_of_le_length (by omega), List.drop_eq_nil_of_le (by omega)]
      simp
    congr 1
    · cases ini <;> simp
    · apply Subtype.ext
      simp only [hdrop1]
      rw [List.take_append_of_le_length (by omega), List.take_of_length_le (by omega)]
    · rw [hdrop33, List.take_append_of_le_length (by simp),
        List.take_of_length_le (by simp), leBytesToNat_natToLeBytes 8 amount (by exact_mod_cast ha)]

theorem mint_unpackUnchecked_encode (m : Mint) (rest : List Byte)
    (hm : m.supply < 2 ^ 64) (hr : rest.length = 14) :
    Mint.unpackUnchecked (m.encodeBytes ++ rest) = .ok m := by
  have hlen : (m.encodeBytes ++ rest).length = Mint.LEN := by
    simp [hr, Mint.LEN]
  rw [Mint.unpackUnchecked, dif_pos hlen]
  cases m with
  | mk ini authority supply decimals =>
    have hauth : authority.val.length = 32 := authority.property
    simp only [Mint.encodeBytes] at *
    have hdrop1 : (((if ini then (1 : Byte) else 0) ::
          (authority.val ++ (natToLeBytes 8 supply ++ [decimals]))) ++ rest).drop 1
        = authority.val ++ ((natToLeBytes 8 supply ++ [decimals]) ++ rest) := by
      simp
    have hdrop33 : (((if ini then (1 : Byte) else 0) ::
          (authority.val ++ (natToLeBytes 8 supply ++ [decimals]))) ++ rest).drop 33
        = natToLeBytes 8 supply ++ ([decimals] ++ rest) := by
      simp only [List.cons_append, List.drop_succ_cons, List.append_assoc]
      rw [List.drop_append_of_le_length (by omega), List.drop_eq_nil_of_le (by omega)]
      simp
    have hget41 : ((((if ini then (1 : Byte) else 0) ::
          (authority.val ++ (natToLeBytes 8 supply ++ [decimals]))) ++ rest)).getD 41 0
        = decimals := by
      have h40 : (authority.val ++ ((natToLeBytes 8 supply ++ [decimals]) ++ rest))[40]?
          = some decimals := by
        rw [List.getElem?_append_right (by omega), hauth]
        rw [List.append_assoc, List.getElem?_append_right (by simp)]
        simp
      simp only [List.cons_append, List.append_assoc, List.singleton_append, List.nil_append,
        List.getD, List.getElem?_cons_succ, List.get?_eq_getElem?] at h40 ⊢
      rw [h40]
      rfl
    congr 1
    congr 1
    · cases ini <;> simp
    · apply Subtype.ext
      simp only [hdrop1]
      rw [List.take_append_of_le_length (by omega), List.take_of_length_le (by omega)]
    · rw [hdrop33, List.take_append_of_le_length (by simp),
        List.take_of_length_le (by simp), leBytesToNat_natToLeBytes 8 supply (by exact_mod_cast hm)]

theorem tokenAccount_unpack_encode (a : TokenAccount) (rest : List Byte)
    (ha : a.amount < 2 ^ 64) (hr : rest.length = 7) (hinit : a.isInitialized = true) :
    TokenAccount.unpack (a.encodeBytes ++ rest) = .ok a := by
  rw [TokenAccount.unpack, tokenAccount_unpackUnchecked_encode a rest ha hr]
  simp [hinit]

theorem mint_unpack_encode (m : Mint) (rest : List Byte)
    (hm : m.supply < 2 ^ 64) (hr : rest.length = 14) (hinit : m.isInitialized = true) :
    Mint.unpack (m.encodeBytes ++ rest) = .ok m := by
  rw [Mint.unpack, mint_unpackUnchecked_encode m rest hm hr]
  simp [hinit]

theorem drop_append_exact {α : Type} (l₁ l₂ : List α) (n : Nat) (h : l₁.length = n) :
    (l₁ ++ l₂).drop n = l₂ := by
  subst h
  exact List.drop_left l₁ l₂

theorem tokenAccount_pack_encode (a b : TokenAccount) (rest : List Byte) (hr : rest.length = 7) :
    TokenAccount.pack a (b.encodeBytes ++ rest) = .ok (a.encodeBytes ++ rest) := by
  rw [TokenAccount.pack, if_pos (by simp [hr, TokenAccount.LEN]),
    drop_append_exact b.encodeBytes rest 41 (by simp)]

theorem mint_pack_encode (m m' : Mint) (rest : List Byte) (hr : rest.length = 14) :
    Mint.pack m (m'.encodeBytes ++ rest) = .ok (m.encodeBytes ++ rest) := by
  rw [Mint.pack, if_pos (by simp [hr, Mint.LEN]),
    drop_append_exact m'.encodeBytes rest 42 (by simp)]

/-- `AccountInfo` as the two programs consume it: the account's address
(`key`), its owning program (`owner`), the signer flag, the lamport balance
and the data buffer. -/
structure AccountInfo where
  key : Pubkey
  owner : Pubkey
  isSigner : Bool
  lamports : Nat
  data : List Byte

/-- The host's `Rent` sysvar, kept abstract: `is_exempt(lamports, data_len)`
is an externally-defined threshold predicate (spec §4.3, check 5); its
arithmetic lives in `solana_program`, outside this repository. -/
structure Rent where
  isExempt : Nat → Nat → Bool

/-- Checked `u64` addition: `a.checked_add(b)` is `None` exactly when the
mathematical sum does not fit in 64 bits. -/
def checkedAdd (a b : Nat) : Option Nat :=
  if a + b < 2 ^ 64 then some (a + b) else none

/-- Checked `u64` subtraction: `a.checked_sub(b)` is `None` exactly when
`b > a`. -/
def checkedSub (a b : Nat) : Option Nat :=
  if b ≤ a then some (a - b) else none

/-- `next_account_info`: takes the next account from the iterator, failing
with `NotEnoughAccountKeys` when exhausted. -/
def nextAccountInfo : List AccountInfo → Except ProgramError (AccountInfo × List AccountInfo)
  | [] => .error .NotEnoughAccountKeys
  | a :: rest => .ok (a, rest)

/-- `process_initialize_mint` (`src/lib.rs` lines 194-227).  Account order:
`[mint, rent_sysvar]`.  Checks, in source order: program ownership of the
mint slot, rent exemption, then the already-initialized gate on the
unpacked record; on success writes `{initialized: true, mint_authority,
supply: 0, decimals}` back.  The decoded `Rent` sysvar is passed in
directly (`Rent::from_account_info` is host-library code assumed to
succeed).  Returns the committed mint buffer. -/
def processInitializeMint (accounts : List AccountInfo) (decimals : Byte)
    (mintAuthority : Pubkey) (rent : Rent) (programId : Pubkey) :
    Except ProgramError (List Byte) :=
  match accounts with
  | mintInfo :: _rentInfo :: _ =>
    if mintInfo.owner ≠ programId then .error .IncorrectProgramId
    else if ¬ rent.isExempt mintInfo.lamports mintInfo.data.length then
      .error .AccountNotRentExempt
    else
      match Mint.unpackUnchecked mintInfo.data with
      | .error e => .error e
      | .ok mint =>
        if mint.isInitialized then .error .AccountAlreadyInitialized
        else
          Mint.pack { mint with isInitialized := true, mintAuthority := mintAuthority,
                                supply := 0, decimals := decimals } mintInfo.data
  | _ => .error .NotEnoughAccountKeys

/-- `process_mint_to` (`src/lib.rs` lines 230-261).  Account order:
`[mint, destination, authority]`.  In source order: program ownership of
mint and destination, `Mint::unpack` (length + initialized), authority-key
match against `mint.mint_authority` (note: the `is_signer` flag of the
authority account is never consulted), `TokenAccount::unpack` of the
destination, checked supply and balance additions, then both packs.
Returns the committed `(mint, destination)` buffers. -/
def processMintTo (accounts : List AccountInfo) (amount : Nat) (programId : Pubkey) :
    Except ProgramError (List Byte × List Byte) :=
  match accounts with
  | mintInfo :: destinationInfo :: authorityInfo :: _ =>
    if mintInfo.owner ≠ programId ∨ destinationInfo.owner ≠ programId then
      .error .IncorrectProgramId
    else
      match Mint.unpack mintInfo.data with
      | .error e => .error e
      | .ok mint =>
        if authorityInfo.key ≠ mint.mintAuthority then .error .InvalidAccountData
        else
          match TokenAccount.unpack destinationInfo.data with
          | .error e => .error e
          | .ok destination =>
            match checkedAdd mint.supply amount with
            | none => .error .InvalidArgument
            | some newSupply =>
              match checkedAdd destination.amount amount with
              | none => .error .InvalidArgument
              | some newAmount =>
                match Mint.pack { mint with supply := newSupply } mintInfo.data with
                | .error e => .error e
                | .ok mintData =>
                  match TokenAccount.pack { destination with amount := newAmount }
                      destinationInfo.data with
                  | .error e => .error e
                  | .ok destinationData => .ok (mintData, destinationData)
  | _ => .error .NotEnoughAccountKeys

/-- `process_transfer` (`src/lib.rs` lines 264-299).  Account order:
`[source, destination, authority]`.  In source order: program ownership of
source and destination, `TokenAccount::unpack` of the source, authority-key
match against `source.owner` (again no `is_signer` consultation),
`TokenAccount::unpack` of the destination, the `amount > source.amount`
gate (`InsufficientFunds`), checked subtraction/addition, then both packs.
Returns the committed `(source, destination)` buffers. -/
def processTransfer (accounts : List AccountInfo) (amount : Nat) (programId : Pubkey) :
    Except ProgramError (List Byte × List Byte) :=
  match accounts with
  | sourceInfo :: destinationInfo :: authorityInfo :: _ =>
    if sourceInfo.owner ≠ programId ∨ destinationInfo.owner ≠ programId then
      .error .IncorrectProgramId
    else
      match TokenAccount.unpack sourceInfo.data with
      | .error e => .error e
      | .ok source =>
        if authorityInfo.key ≠ source.owner then .error .InvalidAccountData
        else
          match TokenAccount.unpack destinationInfo.data with
          | .error e => .error e
          | .ok destination =>
            if amount > source.amount then .error .InsufficientFunds
            else
              match checkedSub source.amount amount with
              | none => .error .InvalidArgument
              | some newSource =>
                match checkedAdd destination.amount amount with
                | none => .error .InvalidArgument
                | some newDestination =>
                  match TokenAccount.pack { source with amount := newSource }
                      sourceInfo.data with
                  | .error e => .error e
                  | .ok sourceData =>
                    match TokenAccount.pack { destination with amount := newDestination }
                        destinationInfo.data with
                    | .error e => .error e
                    | .ok destinationData => .ok (sourceData, destinationData)
  | _ => .error .NotEnoughAccountKeys

/-- `process_burn` (`src/lib.rs` lines 302-337).  Account order:
`[source, mint, authority]`.  In source order: program ownership of source
and mint, `TokenAccount::unpack` of the source, authority-key match against
`source.owner` (no `is_signer` consultation), `Mint::unpack`, the
`amount > source.amount` gate, checked subtractions of balance and supply,
then both packs.  Returns the committed `(source, mint)` buffers. -/
def processBurn (accounts : List AccountInfo) (amount : Nat) (programId : Pubkey) :
    Except ProgramError (List Byte × List Byte) :=
  match accounts with
  | sourceInfo :: mintInfo :: authorityInfo :: _ =>
    if sourceInfo.owner ≠ programId ∨ mintInfo.owner ≠ programId then
      .error .IncorrectProgramId
    else
      match TokenAccount.unpack sourceInfo.data with
      | .error e => .error e
      | .ok source =>
        if authorityInfo.key ≠ source.owner then .error .InvalidAccountData
        else
          match Mint.unpack mintInfo.data with
          | .error e => .error e
          | .ok mint =>
            if amount > source.amount then .error .InsufficientFunds
            else
              match checkedSub source.amount amount with
              | none => .error .InvalidArgument
              | some newSource =>
                match checkedSub mint.supply amount with
                | none => .error .InvalidArgument
                | some newSupply =>
                  match TokenAccount.pack { source with amount := newSource }
                      sourceInfo.data with
                  | .error e => .error e
                  | .ok sourceData =>
                    match Mint.pack { mint with supply := newSupply } mintInfo.data with
                    | .error e => .error e
                    | .ok mintData => .ok (sourceData, mintData)
  | _ => .error .NotEnoughAccountKeys

/-- `NFTMetadata` (nft program, `lib.rs` lines 14-22).  Rust `String`
fields are modelled as their UTF-8 byte payloads (`List Byte`); no claim
depends on UTF-8 validity. -/
structure NFTMetadata where
  name : List Byte
  symbol : List Byte
  uri : List Byte
  creator : Pubkey
  royaltyPercentage : Byte
  isMutable : Bool
  deriving DecidableEq, Repr

/-- Borsh encoding of a string: 4-byte little-endian length then the
bytes. -/
def borshStr (s : List Byte) : List Byte :=
  natToLeBytes 4 s.length ++ s

/-- Borsh serialization of `NFTMetadata` (derived `BorshSerialize`):
fields in declaration order — name, symbol, uri, creator (32 raw bytes),
royalty byte, bool byte. -/
def NFTMetadata.borshEncode (m : NFTMetadata) : List Byte :=
  borshStr m.name ++ (borshStr m.symbol ++ (borshStr m.uri ++
    (m.creator.val ++ [m.royaltyPercentage, if m.isMutable then 1 else 0])))

/-- Borsh primitive: consume exactly `n` bytes. -/
def parseBytes (n : Nat) (l : List Byte) : Option (List Byte × List Byte) :=
  if n ≤ l.length then some (l.take n, l.drop n) else none

/-- Borsh `u32` (little-endian, 4 bytes). -/
def parseU32 (l : List Byte) : Option (Nat × List Byte) :=
  match parseBytes 4 l with
  | none => none
  | some (b, r) => some (leBytesToNat b, r)

/-- Borsh `String` payload: `u32` length then that many bytes (UTF-8
validation is not modelled). -/
def parseStr (l : List Byte) : Option (List Byte × List Byte) :=
  match parseU32 l with
  | none => none
  | some (n, r) => parseBytes n r

/-- Borsh `Pubkey`: 32 raw bytes. -/
def parsePk (l : List Byte) : Option (Pubkey × List Byte) :=
  if h : 32 ≤ l.length then
    some (⟨l.take 32, by simp [List.length_take]; omega⟩, l.drop 32)
  else none

/-- Borsh `u8`. -/
def parseU8 : List Byte → Option (Byte × List Byte)
  | [] => none
  | b :: r => some (b, r)

/-- Borsh `bool`: byte 1 is `true`, byte 0 is `false`, anything else is a
decoding error. -/
def parseBool (l : List Byte) : Option (Bool × List Byte) :=
  match parseU8 l with
  | none => none
  | some (b, r) => if b = 1 then some (true, r) else if b = 0 then some (false, r) else none

/-- Borsh deserialization of `NFTMetadata` (derived `BorshDeserialize`),
returning the record and the unconsumed suffix. -/
def NFTMetadata.borshDecode (l : List Byte) : Option (NFTMetadata × List Byte) :=
  match parseStr l with
  | none => none
  | some (name, l) =>
    match parseStr l with
    | none => none
    | some (symbol, l) =>
      match parseStr l with
      | none => none
      | some (uri, l) =>
        match parsePk l with
        | none => none
        | some (creator, l) =>
          match parseU8 l with
          | none => none
          | some (royalty, l) =>
            match parseBool l with
            | none => none
            | some (mutFlag, l) => some (⟨name, symbol, uri, creator, royalty, mutFlag⟩, l)

/-- `BorshDeserialize::try_from_slice`: deserialize and require the whole
input consumed; any failure surfaces through `?` as a Borsh I/O program
error. -/
def NFTMetadata.tryFromSlice (l : List Byte) : Except ProgramError NFTMetadata :=
  match NFTMetadata.borshDecode l with
  | some (m, []) => .ok m
  | _ => .error .BorshIoError

/-- `m.serialize(&mut &mut data[..])`: write the encoding over the front of
the buffer, leaving the tail unchanged; fail when the buffer is too small
(the writer runs out of space).  A failed invocation commits nothing. -/
def NFTMetadata.serializeInto (m : NFTMetadata) (buf : List Byte) :
    Except ProgramError (List Byte) :=
  if m.borshEncode.length ≤ buf.length then
    .ok (m.borshEncode ++ buf.drop m.borshEncode.length)
  else .error .BorshIoError

/-- `process_create_nft` (`lib.rs` lines 90-142).  Account order:
`[nft, creator, rent_sysvar]`.  In source order: program ownership of the
nft slot, creator signer flag, rent exemption, royalty bound (≤ 100); then
the record is serialized over whatever the slot held — there is no
already-holding check and the slot is never deserialized.  Returns the
committed nft buffer. -/
def processCreateNft (programId : Pubkey) (accounts : List AccountInfo)
    (name symbol uri : List Byte) (royaltyPercentage : Byte) (isMutable : Bool)
    (rent : Rent) : Except ProgramError (List Byte) :=
  match accounts with
  | nftAccount :: creatorAccount :: _rentAccount :: _ =>
    if nftAccount.owner ≠ programId then .error .IncorrectProgramId
    else if ¬ creatorAccount.isSigner then .error .MissingRequiredSignature
    else if ¬ rent.isExempt nftAccount.lamports nftAccount.data.length then
      .error .AccountNotRentExempt
    else if royaltyPercentage.val > 100 then .error .InvalidArgument
    else
      NFTMetadata.serializeInto
        ⟨name, symbol, uri, creatorAccount.key, royaltyPercentage, isMutable⟩
        nftAccount.data
  | _ => .error .NotEnoughAccountKeys

/-- `process_transfer_nft` (`lib.rs` lines 145-188).  Account order:
`[nft, current_owner, new_owner]`.  In source order: program ownership of
the nft slot, `try_from_slice`, stored-creator match against the
current-owner key (`InvalidAccountData`), current-owner signer flag
(`MissingRequiredSignature`), `new_owner` argument match against the
new-owner account key (`InvalidArgument`); then only the `creator` field is
replaced and the record re-serialized.  Returns the committed nft
buffer. -/
def processTransferNft (programId : Pubkey) (accounts : List AccountInfo)
    (newOwner : Pubkey) : Except ProgramError (List Byte) :=
  match accounts with
  | nftAccount :: currentOwner :: newOwnerAccount :: _ =>
    if nftAccount.owner ≠ programId then .error .IncorrectProgramId
    else
      match NFTMetadata.tryFromSlice nftAccount.data with
      | .error e => .error e
      | .ok nftMetadata =>
        if nftMetadata.creator ≠ currentOwner.key then .error .InvalidAccountData
        else if ¬ currentOwner.isSigner then .error .MissingRequiredSignature
        else if newOwner ≠ newOwnerAccount.key then .error .InvalidArgument
        else
          NFTMetadata.serializeInto { nftMetadata with creator := newOwner }
            nftAccount.data
  | _ => .error .NotEnoughAccountKeys

/-- `process_update_metadata` (`lib.rs` lines 191-243).  Account order:
`[nft, owner]`.  In source order: program ownership of the nft slot,
`try_from_slice`, the mutability gate (`InvalidArgument`), stored-creator
match against the owner key (`InvalidAccountData`), owner signer flag
(`MissingRequiredSignature`); then each present optional field overwrites
the stored one and the record is re-serialized.  Returns the committed nft
buffer. -/
def processUpdateMetadata (programId : Pubkey) (accounts : List AccountInfo)
    (name symbol uri : Option (List Byte)) : Except ProgramError (List Byte) :=
  match accounts with
  | nftAccount :: ownerAccount :: _ =>
    if nftAccount.owner ≠ programId then .error .IncorrectProgramId
    else
      match NFTMetadata.tryFromSlice nftAccount.data with
      | .error e => .error e
      | .ok nftMetadata =>
        if ¬ nftMetadata.isMutable then .error .InvalidArgument
        else if nftMetadata.creator ≠ ownerAccount.key then .error .InvalidAccountData
        else if ¬ ownerAccount.isSigner then .error .MissingRequiredSignature
        else
          NFTMetadata.serializeInto
            { nftMetadata with
                name := name.getD nftMetadata.name
                symbol := symbol.getD nftMetadata.symbol
                uri := uri.getD nftMetadata.uri }
            nftAccount.data
  | _ => .error .NotEnoughAccountKeys

theorem parseBytes_append (s rest : List Byte) :
    parseBytes s.length (s ++ rest) = some (s, rest) := by
  rw [parseBytes, if_pos (by simp)]
  simp [List.take_left, List.drop_left]

theorem parseU32_encode (n : Nat) (rest : List Byte) (h : n < 2 ^ 32) :
    parseU32 (natToLeBytes 4 n ++ rest) = some (n, rest) := by
  have hb := parseBytes_append (natToLeBytes 4 n) rest
  rw [natToLeBytes_length] at hb
  rw [parseU32, hb]
  simp [leBytesToNat_natToLeBytes 4 n (by norm_num; omega)]

theorem parseStr_encode (s rest : List Byte) (h : s.length < 2 ^ 32) :
    parseStr (borshStr s ++ rest) = some (s, rest) := by
  rw [borshStr, List.append_assoc, parseStr, parseU32_encode s.length _ h]
  exact parseBytes_append s rest

theorem parsePk_encode (p : Pubkey) (rest : List Byte) :
    parsePk (p.val ++ rest) = some (p, rest) := by
  have hp : p.val.length = 32 := p.property
  rw [parsePk, dif_pos (by simp [hp])]
  congr 1
  congr 1
  · apply Subtype.ext
    simp only
    rw [List.take_append_of_le_length (by omega), List.take_of_length_le (by omega)]
  · rw [List.drop_append_of_le_length (by omega), List.drop_eq_nil_of_le (by omega)]
    simp

theorem borshDecode_encode (m : NFTMetadata) (rest : List Byte)
    (hn : m.name.length < 2 ^ 32) (hs : m.symbol.length < 2 ^ 32)
    (hu : m.uri.length < 2 ^ 32) :
    NFTMetadata.borshDecode (m.borshEncode ++ rest) = some (m, rest) := by
  cases m with
  | mk name symbol uri creator royalty mutFlag =>
    simp only [NFTMetadata.borshEncode] at *
    simp only [NFTMetadata.borshDecode, List.append_assoc,
      parseStr_encode name _ hn, parseStr_encode symbol _ hs, parseStr_encode uri _ hu,
      parsePk_encode creator]
    cases mutFlag <;> simp [parseU8, parseBool]

theorem tryFromSlice_encode (m : NFTMetadata)
    (hn : m.name.length < 2 ^ 32) (hs : m.symbol.length < 2 ^ 32)
    (hu : m.uri.length < 2 ^ 32) :
    NFTMetadata.tryFromSlice m.borshEncode = .ok m := by
  rw [NFTMetadata.tryFromSlice,
    show m.borshEncode = m.borshEncode ++ [] by simp,
    borshDecode_encode m [] hn hs hu]

theorem borshEncode_length (m : NFTMetadata) :
    m.borshEncode.length = m.name.length + m.symbol.length + m.uri.length + 46 := by
  simp [NFTMetadata.borshEncode, borshStr, m.creator.property]
  omega

theorem serializeInto_encode (m m' : NFTMetadata)
    (hlen : m'.borshEncode.length = m.borshEncode.length) :
    NFTMetadata.serializeInto m' m.borshEncode = .ok m'.borshEncode := by
  rw [NFTMetadata.serializeInto, if_pos (by omega),
    List.drop_eq_nil_of_le (by omega), List.append_nil]

theorem processMintTo_ok (pid : Pubkey) (mintInfo destInfo authInfo : AccountInfo)
    (tail : List AccountInfo) (m : Mint) (d : TokenAccount) (rm rd : List Byte) (amount : Nat)
    (hmo : mintInfo.owner = pid) (hdo : destInfo.owner = pid)
    (hmd : mintInfo.data = m.encodeBytes ++ rm) (hrm : rm.length = 14)
    (hmi : m.isInitialized = true) (hms : m.supply < 2 ^ 64)
    (hkey : authInfo.key = m.mintAuthority)
    (hdd : destInfo.data = d.encodeBytes ++ rd) (hrd : rd.length = 7)
    (hdi : d.isInitialized = true) (hda : d.amount < 2 ^ 64)
    (hov1 : m.supply + amount < 2 ^ 64) (hov2 : d.amount + amount < 2 ^ 64) :
    processMintTo (mintInfo :: destInfo :: authInfo :: tail) amount pid =
      .ok (({ m with supply := m.supply + amount }).encodeBytes ++ rm,
           ({ d with amount := d.amount + amount }).encodeBytes ++ rd) := by
  simp only [processMintTo]
  rw [if_neg (by simp [hmo, hdo])]
  rw [hmd, mint_unpack_encode m rm hms hrm hmi]
  simp only
  rw [if_neg (by simp [hkey])]
  rw [hdd, tokenAccount_unpack_encode d rd hda hrd hdi]
  simp only
  rw [checkedAdd, if_pos hov1]
  simp only
  rw [checkedAdd, if_pos hov2]
  simp only
  rw [mint_pack_encode _ m rm hrm]
  simp only
  rw [tokenAccount_pack_encode _ d rd hrd]

theorem processMintTo_overflow (pid : Pubkey) (mintInfo destInfo authInfo : AccountInfo)
    (tail : List AccountInfo) (m : Mint) (d : TokenAccount) (rm rd : List Byte) (amount : Nat)
    (hmo : mintInfo.owner = pid) (hdo : destInfo.owner = pid)
    (hmd : mintInfo.data = m.encodeBytes ++ rm) (hrm : rm.length = 14)
    (hmi : m.isInitialized = true) (hms : m.supply < 2 ^ 64)
    (hkey : authInfo.key = m.mintAuthority)
    (hdd : destInfo.data = d.encodeBytes ++ rd) (hrd : rd.length = 7)
    (hdi : d.isInitialized = true) (hda : d.amount < 2 ^ 64)
    (hov : 2 ^ 64 ≤ m.supply + amount ∨ 2 ^ 64 ≤ d.amount + amount) :
    processMintTo (mintInfo :: destInfo :: authInfo :: tail) amount pid =
      .error .InvalidArgument := by
  simp only [processMintTo]
  rw [if_neg (by simp [hmo, hdo])]
  rw [hmd, mint_unpack_encode m rm hms hrm hmi]
  simp only
  rw [if_neg (by simp [hkey])]
  rw [hdd, tokenAccount_unpack_encode d rd hda hrd hdi]
  simp only
  by_cases h1 : m.supply + amount < 2 ^ 64
  · rw [checkedAdd, if_pos h1]
    simp only
    rw [checkedAdd, if_neg (by omega)]
  · rw [checkedAdd, if_neg h1]

theorem processTransfer_ok (pid : Pubkey) (srcInfo dstInfo authInfo : AccountInfo)
    (tail : List AccountInfo) (a b : TokenAccount) (r1 r2 : List Byte) (amount : Nat)
    (hso : srcInfo.owner = pid) (hdo : dstInfo.owner = pid)
    (hsd : srcInfo.data = a.encodeBytes ++ r1) (hr1 : r1.length = 7)
    (hai : a.isInitialized = true) (haa : a.amount < 2 ^ 64)
    (hkey : authInfo.key = a.owner)
    (hdd : dstInfo.data = b.encodeBytes ++ r2) (hr2 : r2.length = 7)
    (hbi : b.isInitialized = true) (hba : b.amount < 2 ^ 64)
    (hle : amount ≤ a.amount) (hov : b.amount + amount < 2 ^ 64) :
    processTransfer (srcInfo :: dstInfo :: authInfo :: tail) amount pid =
      .ok (({ a with amount := a.amount - amount }).encodeBytes ++ r1,
           ({ b with amount := b.amount + amount }).encodeBytes ++ r2) := by
  simp only [processTransfer]
  rw [if_neg (by simp [hso, hdo])]
  rw [hsd, tokenAccount_unpack_encode a r1 haa hr1 hai]
  simp only
  rw [if_neg (by simp [hkey])]
  rw [hdd, tokenAccount_unpack_encode b r2 hba hr2 hbi]
  simp only
  rw [if_neg (by omega)]
  rw [checkedSub, if_pos hle]
  simp only
  rw [checkedAdd, if_pos hov]
  simp only
  rw [tokenAccount_pack_encode _ a r1 hr1]
  simp only
  rw [tokenAccount_pack_encode _ b r2 hr2]

theorem processTransfer_insufficient (pid : Pubkey) (srcInfo dstInfo authInfo : AccountInfo)
    (tail : List AccountInfo) (a b : TokenAccount) (r1 r2 : List Byte) (amount : Nat)
    (hso : srcInfo.owner = pid) (hdo : dstInfo.owner = pid)
    (hsd : srcInfo.data = a.encodeBytes ++ r1) (hr1 : r1.length = 7)
    (hai : a.isInitialized = true) (haa : a.amount < 2 ^ 64)
    (hkey : authInfo.key = a.owner)
    (hdd : dstInfo.data = b.encodeBytes ++ r2) (hr2 : r2.length = 7)
    (hbi : b.isInitialized = true) (hba : b.amount < 2 ^ 64)
    (hgt : a.amount < amount) :
    processTransfer (srcInfo :: dstInfo :: authInfo :: tail) amount pid =
      .error .InsufficientFunds := by
  simp only [processTransfer]
  rw [if_neg (by simp [hso, hdo])]
  rw [hsd, tokenAccount_unpack_encode a r1 haa hr1 hai]
  simp only
  rw [if_neg (by simp [hkey])]
  rw [hdd, tokenAccount_unpack_encode b r2 hba hr2 hbi]
  simp only
  rw [if_pos hgt]

theorem processTransfer_overflow (pid : Pubkey) (srcInfo dstInfo authInfo : AccountInfo)
    (tail : List AccountInfo) (a b : TokenAccount) (r1 r2 : List Byte) (amount : Nat)
    (hso : srcInfo.owner = pid) (hdo : dstInfo.owner = pid)
    (hsd : srcInfo.data = a.encodeBytes ++ r1) (hr1 : r1.length = 7)
    (hai : a.isInitialized = true) (haa : a.amount < 2 ^ 64)
    (hkey : authInfo.key = a.owner)
    (hdd : dstInfo.data = b.encodeBytes ++ r2) (hr2 : r2.length = 7)
    (hbi : b.isInitialized = true) (hba : b.amount < 2 ^ 64)
    (hle : amount ≤ a.amount) (hov : 2 ^ 64 ≤ b.amount + amount) :
    processTransfer (srcInfo :: dstInfo :: authInfo :: tail) amount pid =
      .error .InvalidArgument := by
  simp only [processTransfer]
  rw [if_neg (by simp [hso, hdo])]
  rw [hsd, tokenAccount_unpack_encode a r1 haa hr1 hai]
  simp only
  rw [if_neg (by simp [hkey])]
  rw [hdd, tokenAccount_unpack_encode b r2 hba hr2 hbi]
  simp only
  rw [if_neg (by omega)]
  rw [checkedSub, if_pos hle]
  simp only
  rw [checkedAdd, if_neg (by omega)]

theorem processBurn_ok (pid : Pubkey) (srcInfo mintInfo authInfo : AccountInfo)
    (tail : List AccountInfo) (a : TokenAccount) (m : Mint) (r1 rm : List Byte) (amount : Nat)
    (hso : srcInfo.owner = pid) (hmo : mintInfo.owner = pid)
    (hsd : srcInfo.data = a.encodeBytes ++ r1) (hr1 : r1.length = 7)
    (hai : a.isInitialized = true) (haa : a.amount < 2 ^ 64)
    (hkey : authInfo.key = a.owner)
    (hmd : mintInfo.data = m.encodeBytes ++ rm) (hrm : rm.length = 14)
    (hmi : m.isInitialized = true) (hms : m.supply < 2 ^ 64)
    (hle : amount ≤ a.amount) (hles : amount ≤ m.supply) :
    processBurn (srcInfo :: mintInfo :: authInfo :: tail) amount pid =
      .ok (({ a with amount := a.amount - amount }).encodeBytes ++ r1,
           ({ m with supply := m.supply - amount }).encodeBytes ++ rm) := by
  simp only [processBurn]
  rw [if_neg (by simp [hso, hmo])]
  rw [hsd, tokenAccount_unpack_encode a r1 haa hr1 hai]
  simp only
  rw [if_neg (by simp [hkey])]
  rw [hmd, mint_unpack_encode m rm hms hrm hmi]
  simp only
  rw [if_neg (by omega)]
  rw [checkedSub, if_pos hle]
  simp only
  rw [checkedSub, if_pos hles]
  simp only
  rw [tokenAccount_pack_encode _ a r1 hr1]
  simp only
  rw [mint_pack_encode _ m rm hrm]

theorem processBurn_underflow (pid : Pubkey) (srcInfo mintInfo authInfo : AccountInfo)
    (tail : List AccountInfo) (a : TokenAccount) (m : Mint) (r1 rm : List Byte) (amount : Nat)
    (hso : srcInfo.owner = pid) (hmo : mintInfo.owner = pid)
    (hsd : srcInfo.data = a.encodeBytes ++ r1) (hr1 : r1.length = 7)
    (hai : a.isInitialized = true) (haa : a.amount < 2 ^ 64)
    (hkey : authInfo.key = a.owner)
    (hmd : mintInfo.data = m.encodeBytes ++ rm) (hrm : rm.length = 14)
    (hmi : m.isInitialized = true) (hms : m.supply < 2 ^ 64)
    (hle : amount ≤ a.amount) (hgt : m.supply < amount) :
    processBurn (srcInfo :: mintInfo :: authInfo :: tail) amount pid =
      .error .InvalidArgument := by
  simp only [processBurn]
  rw [if_neg (by simp [hso, hmo])]
  rw [hsd, tokenAccount_unpack_encode a r1 haa hr1 hai]
  simp only
  rw [if_neg (by simp [hkey])]
  rw [hmd, mint_unpack_encode m rm hms hrm hmi]
  simp only
  rw [if_neg (by omega)]
  rw [checkedSub, if_pos hle]
  simp only
  rw [checkedSub, if_neg (by omega)]

theorem tokenAccount_unpack_encode_uninit (a : TokenAccount) (rest : List Byte)
    (ha : a.amount < 2 ^ 64) (hr : rest.length = 7) (hinit : a.isInitialized = false) :
    TokenAccount.unpack (a.encodeBytes ++ rest) = .error .UninitializedAccount := by
  rw [TokenAccount.unpack, tokenAccount_unpackUnchecked_encode a rest ha hr]
  simp [hinit]

theorem mint_unpack_encode_uninit (m : Mint) (rest : List Byte)
    (hm : m.supply < 2 ^ 64) (hr : rest.length = 14) (hinit : m.isInitialized = false) :
    Mint.unpack (m.encodeBytes ++ rest) = .error .UninitializedAccount := by
  rw [Mint.unpack, mint_unpackUnchecked_encode m rest hm hr]
  simp [hinit]

theorem processMintTo_inv (pid : Pubkey) (mintInfo destInfo authInfo : AccountInfo)
    (tail : List AccountInfo) (m : Mint) (d : TokenAccount) (rm rd : List Byte)
    (amount : Nat) (md dd : List Byte)
    (hmo : mintInfo.owner = pid) (hdo : destInfo.owner = pid)
    (hmd : mintInfo.data = m.encodeBytes ++ rm) (hrm : rm.length = 14)
    (hms : m.supply < 2 ^ 64)
    (hkey : authInfo.key = m.mintAuthority)
    (hdd : destInfo.data = d.encodeBytes ++ rd) (hrd : rd.length = 7)
    (hda : d.amount < 2 ^ 64)
    (h : processMintTo (mintInfo :: destInfo :: authInfo :: tail) amount pid = .ok (md, dd)) :
    m.isInitialized = true ∧ d.isInitialized = true ∧
    m.supply + amount < 2 ^ 64 ∧ d.amount + amount < 2 ^ 64 ∧
    md = ({ m with supply := m.supply + amount }).encodeBytes ++ rm ∧
    dd = ({ d with amount := d.amount + amount }).encodeBytes ++ rd := by
  by_cases hmi : m.isInitialized
  case neg =>
    rw [processMintTo] at h
    rw [if_neg (by simp [hmo, hdo]), hmd,
      mint_unpack_encode_uninit m rm hms hrm (by simpa using hmi)] at h
    exact absurd h (by simp)
  by_cases hdi : d.isInitialized
  case neg =>
    rw [processMintTo] at h
    rw [if_neg (by simp [hmo, hdo]), hmd, mint_unpack_encode m rm hms hrm hmi] at h
    simp only at h
    rw [if_neg (by simp [hkey]), hdd,
      tokenAccount_unpack_encode_uninit d rd hda hrd (by simpa using hdi)] at h
    exact absurd h (by simp)
  by_cases hov : m.supply + amount < 2 ^ 64 ∧ d.amount + amount < 2 ^ 64
  case neg =>
    rw [processMintTo_overflow pid mintInfo destInfo authInfo tail m d rm rd amount
      hmo hdo hmd hrm hmi hms hkey hdd hrd hdi hda (by omega)] at h
    exact absurd h (by simp)
  case pos =>
    rw [processMintTo_ok pid mintInfo destInfo authInfo tail m d rm rd amount
      hmo hdo hmd hrm hmi hms hkey hdd hrd hdi hda hov.1 hov.2] at h
    simp only [Except.ok.injEq] at h
    injection h with h1 h2
    exact ⟨hmi, hdi, hov.1, hov.2, h1.symm, h2.symm⟩

theorem processTransfer_inv (pid : Pubkey) (srcInfo dstInfo authInfo : AccountInfo)
    (tail : List AccountInfo) (a b : TokenAccount) (r1 r2 : List Byte)
    (amount : Nat) (sd dd : List Byte)
    (hso : srcInfo.owner = pid) (hdo : dstInfo.owner = pid)
    (hsd : srcInfo.data = a.encodeBytes ++ r1) (hr1 : r1.length = 7)
    (haa : a.amount < 2 ^ 64)
    (hkey : authInfo.key = a.owner)
    (hdd : dstInfo.data = b.encodeBytes ++ r2) (hr2 : r2.length = 7)
    (hba : b.amount < 2 ^ 64)
    (h : processTransfer (srcInfo :: dstInfo :: authInfo :: tail) amount pid = .ok (sd, dd)) :
    a.isInitialized = true ∧ b.isInitialized = true ∧
    amount ≤ a.amount ∧ b.amount + amount < 2 ^ 64 ∧
    sd = ({ a with amount := a.amount - amount }).encodeBytes ++ r1 ∧
    dd = ({ b with amount := b.amount + amount }).encodeBytes ++ r2 := by
  by_cases hai : a.isInitialized
  case neg =>
    rw [processTransfer] at h
    rw [if_neg (by simp [hso, hdo]), hsd,
      tokenAccount_unpack_encode_uninit a r1 haa hr1 (by simpa using hai)] at h
    exact absurd h (by simp)
  by_cases hbi : b.isInitialized
  case neg =>
    rw [processTransfer] at h
    rw [if_neg (by simp [hso, hdo]), hsd, tokenAccount_unpack_encode a r1 haa hr1 hai] at h
    simp only at h
    rw [if_neg (by simp [hkey]), hdd,
      tokenAccount_unpack_encode_uninit b r2 hba hr2 (by simpa using hbi)] at h
    exact absurd h (by simp)
  by_cases hle : amount ≤ a.amount
  case neg =>
    rw [processTransfer_insufficient pid srcInfo dstInfo authInfo tail a b r1 r2 amount
      hso hdo hsd hr1 hai haa hkey hdd hr2 hbi hba (by omega)] at h
    exact absurd h (by simp)
  by_cases hov : b.amount + amount < 2 ^ 64
  case neg =>
    rw [processTransfer_overflow pid srcInfo dstInfo authInfo tail a b r1 r2 amount
      hso hdo hsd hr1 hai haa hkey hdd hr2 hbi hba hle (by omega)] at h
    exact absurd h (by simp)
  case pos =>
    rw [processTransfer_ok pid srcInfo dstInfo authInfo tail a b r1 r2 amount
      hso hdo hsd hr1 hai haa hkey hdd hr2 hbi hba hle hov] at h
    simp only [Except.ok.injEq] at h
    injection h with h1 h2
    exact ⟨hai, hbi, hle, hov, h1.symm, h2.symm⟩

theorem processBurn_inv (pid : Pubkey) (srcInfo mintInfo authInfo : AccountInfo)
    (tail : List AccountInfo) (a : TokenAccount) (m : Mint) (r1 rm : List Byte)
    (amount : Nat) (sd md : List Byte)
    (hso : srcInfo.owner = pid) (hmo : mintInfo.owner = pid)
    (hsd : srcInfo.data = a.encodeBytes ++ r1) (hr1 : r1.length = 7)
    (haa : a.amount < 2 ^ 64)
    (hkey : authInfo.key = a.owner)
    (hmd : mintInfo.data = m.encodeBytes ++ rm) (hrm : rm.length = 14)
    (hms : m.supply < 2 ^ 64)
    (h : processBurn (srcInfo :: mintInfo :: authInfo :: tail) amount pid = .ok (sd, md)) :
    a.isInitialized = true ∧ m.isInitialized = true ∧
    amount ≤ a.amount ∧ amount ≤ m.supply ∧
    sd = ({ a with amount := a.amount - amount }).encodeBytes ++ r1 ∧
    md = ({ m with supply := m.supply - amount }).encodeBytes ++ rm := by
  by_cases hai : a.isInitialized
  case neg =>
    rw [processBurn] at h
    rw [if_neg (by simp [hso, hmo]), hsd,
      tokenAccount_unpack_encode_uninit a r1 haa hr1 (by simpa using hai)] at h
    exact absurd h (by simp)
  by_cases hmi : m.isInitialized
  case neg =>
    rw [processBurn] at h
    rw [if_neg (by simp [hso, hmo]), hsd, tokenAccount_unpack_encode a r1 haa hr1 hai] at h
    simp only at h
    rw [if_neg (by simp [hkey]), hmd,
      mint_unpack_encode_uninit m rm hms hrm (by simpa using hmi)] at h
    exact absurd h (by simp)
  by_cases hle : amount ≤ a.amount
  case neg =>
    rw [processBurn] at h
    rw [if_neg (by simp [hso, hmo]), hsd, tokenAccount_unpack_encode a r1 haa hr1 hai] at h
    simp only at h
    rw [if_neg (by simp [hkey]), hmd, mint_unpack_encode m rm hms hrm hmi] at h
    simp only at h
    rw [if_pos (by omega)] at h
    exact absurd h (by simp)
  by_cases hles : amount ≤ m.supply
  case neg =>
    rw [processBurn_underflow pid srcInfo mintInfo authInfo tail a m r1 rm amount
      hso hmo hsd hr1 hai haa hkey hmd hrm hmi hms hle (by omega)] at h
    exact absurd h (by simp)
  case pos =>
    rw [processBurn_ok pid srcInfo mintInfo authInfo tail a m r1 rm amount
      hso hmo hsd hr1 hai haa hkey hmd hrm hmi hms hle hles] at h
    simp only [Except.ok.injEq] at h
    injection h with h1 h2
    exact ⟨hai, hmi, hle, hles, h1.symm, h2.symm⟩

/-- A token-account slot of the exact packed width (`LEN = 48`): the 41
encoded bytes followed by the 7 padding bytes. -/
def TokenAccount.toData (a : TokenAccount) : List Byte :=
  a.encodeBytes ++ List.replicate 7 0

/-- A mint slot of the exact packed width (`LEN = 56`): the 42 encoded
bytes followed by the 14 padding bytes. -/
def Mint.toData (m : Mint) : List Byte :=
  m.encodeBytes ++ List.replicate 14 0

/-- Ledger-level view for the conservation property: one mint and the
closed set of token accounts tied to it (spec §3). -/
structure LedgerState where
  mint : Mint
  accounts : List TokenAccount

/-- One ledger invocation; the token accounts involved are named by index
into the closed set. -/
inductive LedgerOp where
  | mintTo (destIdx : Nat) (amount : Nat)
  | transfer (srcIdx dstIdx : Nat) (amount : Nat)
  | burn (srcIdx : Nat) (amount : Nat)

/-- Host driver for one invocation: materialize the named records into
program-owned slots of the exact packed width, run the corresponding
processor presenting the authority account the operation designates
(`mint_authority` for MintTo, the source's `owner` for Transfer/Burn), and
decode the committed buffers back.  An out-of-range index is a host error;
`transfer` requires two distinct slots because the program takes two
simultaneous mutable borrows of the named slots (spec §5: the host locks
every named slot exclusively per invocation). -/
def applyOp (pid : Pubkey) (s : LedgerState) : LedgerOp → Except ProgramError LedgerState
  | .mintTo i amount =>
    match s.accounts[i]? with
    | none => .error .NotEnoughAccountKeys
    | some d =>
      match processMintTo [⟨pid, pid, true, 0, s.mint.toData⟩, ⟨pid, pid, true, 0, d.toData⟩,
          ⟨s.mint.mintAuthority, pid, true, 0, []⟩] amount pid with
      | .error e => .error e
      | .ok (mintData, destData) =>
        match Mint.unpackUnchecked mintData, TokenAccount.unpackUnchecked destData with
        | .ok m', .ok d' => .ok ⟨m', s.accounts.set i d'⟩
        | _, _ => .error .InvalidAccountData
  | .transfer i j amount =>
    if i = j then .error .InvalidAccountData
    else
      match s.accounts[i]?, s.accounts[j]? with
      | some a, some b =>
        match processTransfer [⟨pid, pid, true, 0, a.toData⟩, ⟨pid, pid, true, 0, b.toData⟩,
            ⟨a.owner, pid, true, 0, []⟩] amount pid with
        | .error e => .error e
        | .ok (srcData, destData) =>
          match TokenAccount.unpackUnchecked srcData, TokenAccount.unpackUnchecked destData with
          | .ok a', .ok b' => .ok ⟨s.mint, (s.accounts.set i a').set j b'⟩
          | _, _ => .error .InvalidAccountData
      | _, _ => .error .NotEnoughAccountKeys
  | .burn i amount =>
    match s.accounts[i]? with
    | none => .error .NotEnoughAccountKeys
    | some a =>
      match processBurn [⟨pid, pid, true, 0, a.toData⟩, ⟨pid, pid, true, 0, s.mint.toData⟩,
          ⟨a.owner, pid, true, 0, []⟩] amount pid with
      | .error e => .error e
      | .ok (srcData, mintData) =>
        match TokenAccount.unpackUnchecked srcData, Mint.unpackUnchecked mintData with
        | .ok a', .ok m' => .ok ⟨m', s.accounts.set i a'⟩
        | _, _ => .error .InvalidAccountData

/-- Run a sequence of invocations; a failed invocation commits nothing and
the ledger is unchanged at that step. -/
def runOps (pid : Pubkey) (s : LedgerState) : List LedgerOp → LedgerState
  | [] => s
  | op :: rest =>
    runOps pid (match applyOp pid s op with | .ok s' => s' | .error _ => s) rest

/-- Sum of all token-account balances in the closed set. -/
def LedgerState.sumAmounts (s : LedgerState) : Nat :=
  (s.accounts.map TokenAccount.amount).sum

/-- Well-formedness of the ledger view: every stored u64 fits in 64 bits. -/
def LedgerState.WF (s : LedgerState) : Prop :=
  s.mint.supply < 2 ^ 64 ∧ ∀ a ∈ s.accounts, a.amount < 2 ^ 64

theorem sum_set_add (l : List Nat) (i : Nat) (x v : Nat) (h : l[i]? = some v) :
    (l.set i x).sum + v = l.sum + x := by
  induction l generalizing i with
  | nil => simp at h
  | cons hd tl ih =>
    cases i with
    | zero =>
      simp only [List.getElem?_cons_zero, Option.some.injEq] at h
      simp [List.set, h]
      omega
    | succ n =>
      simp only [List.getElem?_cons_succ] at h
      have := ih n h
      simp [List.set]
      omega

theorem applyOp_conserves (pid : Pubkey) (s : LedgerState) (op : LedgerOp) (s' : LedgerState)
    (hwf : s.WF) (hsum : s.sumAmounts = s.mint.supply)
    (h : applyOp pid s op = .ok s') :
    s'.WF ∧ s'.sumAmounts = s'.mint.supply := by
  obtain ⟨hws, hwa⟩ := hwf
  simp only [LedgerState.sumAmounts] at hsum
  cases op with
  | mintTo i amount =>
    simp only [applyOp] at h
    cases hd : s.accounts[i]? with
    | none => rw [hd] at h; exact absurd h (by simp)
    | some d =>
      rw [hd] at h
      simp only at h
      cases hp : processMintTo [⟨pid, pid, true, 0, s.mint.toData⟩, ⟨pid, pid, true, 0, d.toData⟩,
          ⟨s.mint.mintAuthority, pid, true, 0, []⟩] amount pid with
      | error e => rw [hp] at h; exact absurd h (by simp)
      | ok p =>
        obtain ⟨mintData, destData⟩ := p
        rw [hp] at h
        have hda : d.amount < 2 ^ 64 := hwa d (List.getElem?_mem hd)
        obtain ⟨hmi, hdi, hov1, hov2, hmdEq, hddEq⟩ :=
          processMintTo_inv pid ⟨pid, pid, true, 0, s.mint.toData⟩ ⟨pid, pid, true, 0, d.toData⟩
            ⟨s.mint.mintAuthority, pid, true, 0, []⟩ [] s.mint d
            (List.replicate 14 0) (List.replicate 7 0) amount mintData destData
            rfl rfl rfl (by simp) hws rfl rfl (by simp) hda hp
        subst hmdEq hddEq
        simp only at h
        rw [mint_unpackUnchecked_encode _ _ (by exact hov1) (by simp),
          tokenAccount_unpackUnchecked_encode _ _ (by exact hov2) (by simp)] at h
        simp only [Except.ok.injEq] at h
        subst h
        refine ⟨⟨hov1, ?_⟩, ?_⟩
        · intro a ha
          rcases List.mem_or_eq_of_mem_set ha with hmem | rfl
          · exact hwa a hmem
          · exact hov2
        · simp only [LedgerState.sumAmounts, List.map_set]
          have hms := sum_set_add (s.accounts.map TokenAccount.amount) i
            (d.amount + amount) d.amount (by simp [hd])
          simp only at hms ⊢
          omega
  | transfer i j amount =>
    simp only [applyOp] at h
    by_cases hij : i = j
    · rw [if_pos hij] at h; exact absurd h (by simp)
    rw [if_neg hij] at h
    cases hdi : s.accounts[i]? with
    | none => rw [hdi] at h; exact absurd h (by simp)
    | some a =>
      cases hdj : s.accounts[j]? with
      | none => rw [hdi, hdj] at h; exact absurd h (by simp)
      | some b =>
        rw [hdi, hdj] at h
        simp only at h
        cases hp : processTransfer [⟨pid, pid, true, 0, a.toData⟩, ⟨pid, pid, true, 0, b.toData⟩,
            ⟨a.owner, pid, true, 0, []⟩] amount pid with
        | error e => rw [hp] at h; exact absurd h (by simp)
        | ok p =>
          obtain ⟨srcData, destData⟩ := p
          rw [hp] at h
          have haa : a.amount < 2 ^ 64 := hwa a (List.getElem?_mem hdi)
          have hba : b.amount < 2 ^ 64 := hwa b (List.getElem?_mem hdj)
          obtain ⟨hai, hbi, hle, hov, hsdEq, hddEq⟩ :=
            processTransfer_inv pid ⟨pid, pid, true, 0, a.toData⟩ ⟨pid, pid, true, 0, b.toData⟩
              ⟨a.owner, pid, true, 0, []⟩ [] a b
              (List.replicate 7 0) (List.replicate 7 0) amount srcData destData
              rfl rfl rfl (by simp) haa rfl rfl (by simp) hba hp
          subst hsdEq hddEq
          simp only at h
          rw [tokenAccount_unpackUnchecked_encode _ _ (show a.amount - amount < 2 ^ 64 by omega) (by simp),
            tokenAccount_unpackUnchecked_encode _ _ (by exact hov) (by simp)] at h
          simp only [Except.ok.injEq] at h
          subst h
          refine ⟨⟨hws, ?_⟩, ?_⟩
          · intro x hx
            rcases List.mem_or_eq_of_mem_set hx with hx1 | rfl
            · rcases List.mem_or_eq_of_mem_set hx1 with hx2 | rfl
              · exact hwa x hx2
              · exact show a.amount - amount < 2 ^ 64 by omega
            · exact hov
          · simp only [LedgerState.sumAmounts, List.map_set]
            have h1 := sum_set_add (s.accounts.map TokenAccount.amount) i
              (a.amount - amount) a.amount (by simp [hdi])
            have h2 := sum_set_add ((s.accounts.map TokenAccount.amount).set i
              (a.amount - amount)) j (b.amount + amount) b.amount
              (by rw [List.getElem?_set_ne hij]; simp [hdj])
            simp only at h1 h2 ⊢
            omega
  | burn i amount =>
    simp only [applyOp] at h
    cases hd : s.accounts[i]? with
    | none => rw [hd] at h; exact absurd h (by simp)
    | some a =>
      rw [hd] at h
      simp only at h
      cases hp : processBurn [⟨pid, pid, true, 0, a.toData⟩, ⟨pid, pid, true, 0, s.mint.toData⟩,
          ⟨a.owner, pid, true, 0, []⟩] amount pid with
      | error e => rw [hp] at h; exact absurd h (by simp)
      | ok p =>
        obtain ⟨srcData, mintData⟩ := p
        rw [hp] at h
        have haa : a.amount < 2 ^ 64 := hwa a (List.getElem?_mem hd)
        obtain ⟨hai, hmi, hle, hles, hsdEq, hmdEq⟩ :=
          processBurn_inv pid ⟨pid, pid, true, 0, a.toData⟩ ⟨pid, pid, true, 0, s.mint.toData⟩
            ⟨a.owner, pid, true, 0, []⟩ [] a s.mint
            (List.replicate 7 0) (List.replicate 14 0) amount srcData mintData
            rfl rfl rfl (by simp) haa rfl rfl (by simp) hws hp
        subst hsdEq hmdEq
        simp only at h
        rw [tokenAccount_unpackUnchecked_encode _ _ (show a.amount - amount < 2 ^ 64 by omega) (by simp),
          mint_unpackUnchecked_encode _ _ (show s.mint.supply - amount < 2 ^ 64 by omega) (by simp)] at h
        simp only [Except.ok.injEq] at h
        subst h
        refine ⟨⟨show s.mint.supply - amount < 2 ^ 64 by omega, ?_⟩, ?_⟩
        · intro x hx
          rcases List.mem_or_eq_of_mem_set hx with hx1 | rfl
          · exact hwa x hx1
          · exact show a.amount - amount < 2 ^ 64 by omega
        · simp only [LedgerState.sumAmounts, List.map_set]
          have h1 := sum_set_add (s.accounts.map TokenAccount.amount) i
            (a.amount - amount) a.amount (by simp [hd])
          simp only at h1 ⊢
          omega

theorem runOps_conserves (pid : Pubkey) (s : LedgerState) (ops : List LedgerOp)
    (hwf : s.WF) (hsum : s.sumAmounts = s.mint.supply) :
    (runOps pid s ops).WF ∧
    (runOps pid s ops).sumAmounts = (runOps pid s ops).mint.supply := by
  induction ops generalizing s with
  | nil => exact ⟨hwf, hsum⟩
  | cons op rest ih =>
    rw [runOps]
    cases hp : applyOp pid s op with
    | error e => exact ih s hwf hsum
    | ok s' =>
      have := applyOp_conserves pid s op s' ⟨hwf.1, hwf.2⟩ hsum hp
      exact ih s' this.1 this.2

theorem processInitializeMint_rent (mintInfo rentInfo : AccountInfo) (tail : List AccountInfo)
    (decimals : Byte) (mintAuthority pid : Pubkey) (rent : Rent)
    (hmo : mintInfo.owner = pid)
    (hrent : rent.isExempt mintInfo.lamports mintInfo.data.length = false) :
    processInitializeMint (mintInfo :: rentInfo :: tail) decimals mintAuthority rent pid =
      .error .AccountNotRentExempt := by
  simp only [processInitializeMint]
  rw [if_neg (by simp [hmo]), if_pos (by simp [hrent])]

theorem processInitializeMint_already (mintInfo rentInfo : AccountInfo)
    (tail : List AccountInfo) (decimals : Byte) (mintAuthority pid : Pubkey) (rent : Rent)
    (m : Mint) (rm : List Byte)
    (hmo : mintInfo.owner = pid)
    (hrent : rent.isExempt mintInfo.lamports mintInfo.data.length = true)
    (hmd : mintInfo.data = m.encodeBytes ++ rm) (hrm : rm.length = 14)
    (hms : m.supply < 2 ^ 64) (hmi : m.isInitialized = true) :
    processInitializeMint (mintInfo :: rentInfo :: tail) decimals mintAuthority rent pid =
      .error .AccountAlreadyInitialized := by
  simp only [processInitializeMint]
  rw [if_neg (by simp [hmo]), if_neg (by simp [hrent])]
  rw [hmd, mint_unpackUnchecked_encode m rm hms hrm]
  simp only
  rw [if_pos hmi]

theorem processInitializeMint_success (mintInfo rentInfo : AccountInfo)
    (tail : List AccountInfo) (decimals : Byte) (mintAuthority pid : Pubkey) (rent : Rent)
    (m : Mint) (rm : List Byte)
    (hmo : mintInfo.owner = pid)
    (hrent : rent.isExempt mintInfo.lamports mintInfo.data.length = true)
    (hmd : mintInfo.data = m.encodeBytes ++ rm) (hrm : rm.length = 14)
    (hms : m.supply < 2 ^ 64) (hmi : m.isInitialized = false) :
    processInitializeMint (mintInfo :: rentInfo :: tail) decimals mintAuthority rent pid =
      .ok ((Mint.mk true mintAuthority 0 decimals).encodeBytes ++ rm) := by
  simp only [processInitializeMint]
  rw [if_neg (by simp [hmo]), if_neg (by simp [hrent])]
  rw [hmd, mint_unpackUnchecked_encode m rm hms hrm]
  simp only
  rw [if_neg (by simp [hmi])]
  exact mint_pack_encode _ m rm hrm

theorem processCreateNft_success (pid : Pubkey) (nftAccount creatorAccount rentAccount : AccountInfo)
    (tail : List AccountInfo) (name symbol uri : List Byte) (royaltyPercentage : Byte)
    (isMutable : Bool) (rent : Rent)
    (hno : nftAccount.owner = pid)
    (hsig : creatorAccount.isSigner = true)
    (hrent : rent.isExempt nftAccount.lamports nftAccount.data.length = true)
    (hroy : royaltyPercentage.val ≤ 100)
    (hfit : name.length + symbol.length + uri.length + 46 ≤ nftAccount.data.length) :
    processCreateNft pid (nftAccount :: creatorAccount :: rentAccount :: tail)
        name symbol uri royaltyPercentage isMutable rent =
      .ok ((NFTMetadata.mk name symbol uri creatorAccount.key royaltyPercentage
            isMutable).borshEncode ++
        nftAccount.data.drop (name.length + symbol.length + uri.length + 46)) := by
  simp only [processCreateNft]
  rw [if_neg (by simp [hno]), if_neg (by simp [hsig]), if_neg (by simp [hrent]),
    if_neg (by omega)]
  rw [NFTMetadata.serializeInto, if_pos (by rw [borshEncode_length]; exact hfit),
    borshEncode_length]

theorem processTransferNft_success (pid : Pubkey)
    (nftAccount currentOwner newOwnerAccount : AccountInfo) (tail : List AccountInfo)
    (m : NFTMetadata) (newOwner : Pubkey)
    (hno : nftAccount.owner = pid)
    (hdata : nftAccount.data = m.borshEncode)
    (hn : m.name.length < 2 ^ 32) (hs : m.symbol.length < 2 ^ 32) (hu : m.uri.length < 2 ^ 32)
    (hcr : m.creator = currentOwner.key)
    (hsig : currentOwner.isSigner = true)
    (hnw : newOwner = newOwnerAccount.key) :
    processTransferNft pid (nftAccount :: currentOwner :: newOwnerAccount :: tail) newOwner =
      .ok (({ m with creator := newOwner }).borshEncode) := by
  simp only [processTransferNft]
  rw [if_neg (by simp [hno]), hdata, tryFromSlice_encode m hn hs hu]
  simp only
  rw [if_neg (by simp [hcr]), if_neg (by simp [hsig]), if_neg (by simp [hnw])]
  exact serializeInto_encode m _ (by rw [borshEncode_length, borshEncode_length])

theorem processTransferNft_wrongOwner (pid : Pubkey)
    (nftAccount currentOwner newOwnerAccount : AccountInfo) (tail : List AccountInfo)
    (m : NFTMetadata) (newOwner : Pubkey)
    (hno : nftAccount.owner = pid)
    (hdata : nftAccount.data = m.borshEncode)
    (hn : m.name.length < 2 ^ 32) (hs : m.symbol.length < 2 ^ 32) (hu : m.uri.length < 2 ^ 32)
    (hcr : m.creator ≠ currentOwner.key) :
    processTransferNft pid (nftAccount :: currentOwner :: newOwnerAccount :: tail) newOwner =
      .error .InvalidAccountData := by
  simp only [processTransferNft]
  rw [if_neg (by simp [hno]), hdata, tryFromSlice_encode m hn hs hu]
  simp only
  rw [if_pos hcr]

theorem processUpdateMetadata_immutable (pid : Pubkey) (nftAccount ownerAccount : AccountInfo)
    (tail : List AccountInfo) (m : NFTMetadata) (name symbol uri : Option (List Byte))
    (hno : nftAccount.owner = pid)
    (hdata : nftAccount.data = m.borshEncode)
    (hn : m.name.length < 2 ^ 32) (hs : m.symbol.length < 2 ^ 32) (hu : m.uri.length < 2 ^ 32)
    (hmut : m.isMutable = false) :
    processUpdateMetadata pid (nftAccount :: ownerAccount :: tail) name symbol uri =
      .error .InvalidArgument := by
  simp only [processUpdateMetadata]
  rw [if_neg (by simp [hno]), hdata, tryFromSlice_encode m hn hs hu]
  simp only
  rw [if_pos (by simp [hmut])]

theorem processUpdateMetadata_wrongOwner (pid : Pubkey) (nftAccount ownerAccount : AccountInfo)
    (tail : List AccountInfo) (m : NFTMetadata) (name symbol uri : Option (List Byte))
    (hno : nftAccount.owner = pid)
    (hdata : nftAccount.data = m.borshEncode)
    (hn : m.name.length < 2 ^ 32) (hs : m.symbol.length < 2 ^ 32) (hu : m.uri.length < 2 ^ 32)
    (hmut : m.isMutable = true)
    (hcr : m.creator ≠ ownerAccount.key) :
    processUpdateMetadata pid (nftAccount :: ownerAccount :: tail) name symbol uri =
      .error .InvalidAccountData := by
  simp only [processUpdateMetadata]
  rw [if_neg (by simp [hno]), hdata, tryFromSlice_encode m hn hs hu]
  simp only
  rw [if_neg (by simp [hmut]), if_pos hcr]

instance {ε α : Type} [DecidableEq ε] [DecidableEq α] : DecidableEq (Except ε α) := fun
  | .error e, .error f =>
    if h : e = f then .isTrue (by rw [h]) else .isFalse (by intro hh; cases hh; exact h rfl)
  | .error _, .ok _ => .isFalse (by intro h; cases h)
  | .ok _, .error _ => .isFalse (by intro h; cases h)
  | .ok a, .ok b =>
    if h : a = b then .isTrue (by rw [h]) else .isFalse (by intro hh; cases hh; exact h rfl)

/-- Sample identities for the concrete scenarios below: the program id and
three distinct user identities. -/
def pk0 : Pubkey := ⟨List.replicate 32 0, by simp⟩

def pkA : Pubkey := ⟨List.replicate 32 1, by simp⟩

def pkB : Pubkey := ⟨List.replicate 32 2, by simp⟩

def pkC : Pubkey := ⟨List.replicate 32 3, by simp⟩

/-- A rent sysvar under which every slot is exempt. -/
def rentOk : Rent := ⟨fun _ _ => true⟩

/-- A rent sysvar under which no slot is exempt. -/
def rentLow : Rent := ⟨fun _ _ => false⟩

def mintA : Mint := ⟨true, pkA, 1000, 2⟩

def acctA : TokenAccount := ⟨true, pkA, 500⟩

def acctB : TokenAccount := ⟨true, pkB, 100⟩

/-- A destination one unit below the u64 ceiling. -/
def acctMax : TokenAccount := ⟨true, pkB, 2 ^ 64 - 1⟩

/-- A mutable sample NFT record controlled by `pkC`. -/
def nft0 : NFTMetadata := ⟨[], [], [], pkC, 10, true⟩

/-- An immutable sample NFT record controlled by `pkC`. -/
def nftImm : NFTMetadata := ⟨[], [], [], pkC, 10, false⟩

/-- C1: the claim says MintTo/Transfer/Burn fail with
`MissingRequiredSignature` whenever the authority/owner account has not
signed.  The token program never reads the authority's `is_signer` flag:
with every signer flag false and all other fields valid, all three
operations commit successfully.  (The sibling NFT program in the same
repository does gate the same role on `is_signer` with
`MissingRequiredSignature`, so the missing check is a slip in the code,
not a spec invention.) -/
theorem c1_unsigned_authority_not_rejected :
    processMintTo [⟨pk0, pk0, false, 0, mintA.toData⟩, ⟨pk0, pk0, false, 0, acctA.toData⟩,
        ⟨pkA, pk0, false, 0, []⟩] 5 pk0 =
      .ok (({ mintA with supply := 1005 }).encodeBytes ++ List.replicate 14 0,
           ({ acctA with amount := 505 }).encodeBytes ++ List.replicate 7 0) ∧
    processTransfer [⟨pk0, pk0, false, 0, acctA.toData⟩, ⟨pk0, pk0, false, 0, acctB.toData⟩,
        ⟨pkA, pk0, false, 0, []⟩] 5 pk0 =
      .ok (({ acctA with amount := 495 }).encodeBytes ++ List.replicate 7 0,
           ({ acctB with amount := 105 }).encodeBytes ++ List.replicate 7 0) ∧
    processBurn [⟨pk0, pk0, false, 0, acctA.toData⟩, ⟨pk0, pk0, false, 0, mintA.toData⟩,
        ⟨pkA, pk0, false, 0, []⟩] 5 pk0 =
      .ok (({ acctA with amount := 495 }).encodeBytes ++ List.replicate 7 0,
           ({ mintA with supply := 995 }).encodeBytes ++ List.replicate 14 0) := by
  refine ⟨?_, ?_, ?_⟩
  · exact processMintTo_ok pk0 _ _ _ [] mintA acctA (List.replicate 14 0) (List.replicate 7 0) 5
      rfl rfl rfl (by simp) rfl (by norm_num [mintA]) rfl rfl (by simp) rfl
      (by norm_num [acctA]) (by norm_num [mintA]) (by norm_num [acctA])
  · exact processTransfer_ok pk0 _ _ _ [] acctA acctB (List.replicate 7 0) (List.replicate 7 0) 5
      rfl rfl rfl (by simp) rfl (by norm_num [acctA]) rfl rfl (by simp) rfl
      (by norm_num [acctB]) (by norm_num [acctA]) (by norm_num [acctB])
  · exact processBurn_ok pk0 _ _ _ [] acctA mintA (List.replicate 7 0) (List.replicate 14 0) 5
      rfl rfl rfl (by simp) rfl (by norm_num [acctA]) rfl rfl (by simp) rfl
      (by norm_num [mintA]) (by norm_num [acctA]) (by norm_num [mintA])

/-- C2: conservation.  For every sequence of ledger operations on a
well-formed mint/account set whose balances initially sum to the supply,
the sum of `TokenAccount.amount` equals `Mint.supply` after running the
sequence (failed invocations commit nothing).  Since the sequence is
universally quantified, the equality holds after every prefix, i.e. after
each successful operation. -/
theorem c2_conservation (pid : Pubkey) (s : LedgerState) (ops : List LedgerOp)
    (hwf : s.WF) (hsum : s.sumAmounts = s.mint.supply) :
    (runOps pid s ops).sumAmounts = (runOps pid s ops).mint.supply :=
  (runOps_conserves pid s ops hwf hsum).2

/-- The §8 scenario: mint 500 to the first account, transfer 200 to the
second, burn 300 from the first. -/
def ledger0 : LedgerState := ⟨⟨true, pkA, 0, 2⟩, [⟨true, pkA, 0⟩, ⟨true, pkA, 0⟩]⟩

def ops0 : List LedgerOp := [.mintTo 0 500, .transfer 0 1 200, .burn 0 300]

theorem c2_conservation_witness :
    (runOps pk0 ledger0 ops0).sumAmounts = (runOps pk0 ledger0 ops0).mint.supply :=
  c2_conservation pk0 ledger0 ops0
    ⟨by norm_num [ledger0], by
      intro a ha
      simp only [ledger0, List.mem_cons, List.not_mem_nil, or_false] at ha
      rcases ha with rfl | rfl <;> norm_num⟩
    rfl

/-- C3 counterexample: the claimed check order fails on all three scenarios
named by the claim.  InitializeMint on an already-initialized, under-funded
slot returns `AccountNotRentExempt` (the claim demands
`AccountAlreadyInitialized`); TransferNFT with a non-signing, mismatching
owner returns `InvalidAccountData` (the claim demands
`MissingRequiredSignature`); UpdateMetadata on an immutable record with a
missing signature returns `InvalidArgument` (the claim demands
`MissingRequiredSignature`). -/
theorem c3_counterexample :
    processInitializeMint [⟨pk0, pk0, false, 7, mintA.toData⟩, ⟨pk0, pk0, false, 0, []⟩]
        2 pkA rentLow pk0 = .error .AccountNotRentExempt ∧
    ProgramError.AccountNotRentExempt ≠ ProgramError.AccountAlreadyInitialized ∧
    processTransferNft pk0 [⟨pk0, pk0, false, 0, nft0.borshEncode⟩, ⟨pkB, pk0, false, 0, []⟩,
        ⟨pkB, pk0, false, 0, []⟩] pkB = .error .InvalidAccountData ∧
    processUpdateMetadata pk0 [⟨pk0, pk0, false, 0, nftImm.borshEncode⟩,
        ⟨pkC, pk0, false, 0, []⟩] none none none = .error .InvalidArgument ∧
    ProgramError.InvalidAccountData ≠ ProgramError.MissingRequiredSignature ∧
    ProgramError.InvalidArgument ≠ ProgramError.MissingRequiredSignature := by
  refine ⟨?_, by decide, ?_, ?_, by decide, by decide⟩
  · exact processInitializeMint_rent _ _ [] 2 pkA pk0 rentLow rfl rfl
  · exact processTransferNft_wrongOwner pk0 _ _ _ [] nft0 pkB rfl rfl
      (by norm_num [nft0]) (by norm_num [nft0]) (by norm_num [nft0]) (by decide)
  · exact processUpdateMetadata_immutable pk0 _ _ [] nftImm none none none rfl rfl
      (by norm_num [nftImm]) (by norm_num [nftImm]) (by norm_num [nftImm]) rfl

/-- C3 (amended): the checks run in the source order of each handler, which
differs from the claimed global order.  TransferNFT checks
ownership → decode → creator-match → signer → new-owner match, so a
non-signing, mismatching owner yields `InvalidAccountData`; InitializeMint
checks ownership → rent → initialization, so an already-initialized,
under-funded slot yields `AccountNotRentExempt`; UpdateMetadata checks
ownership → decode → mutability → creator-match → signer, so an immutable
record with a missing signature yields `InvalidArgument`. -/
theorem c3_check_order :
    (∀ (pid : Pubkey) (nftAccount currentOwner newOwnerAccount : AccountInfo)
        (tail : List AccountInfo) (m : NFTMetadata) (newOwner : Pubkey),
      nftAccount.owner = pid → nftAccount.data = m.borshEncode →
      m.name.length < 2 ^ 32 → m.symbol.length < 2 ^ 32 → m.uri.length < 2 ^ 32 →
      m.creator ≠ currentOwner.key → currentOwner.isSigner = false →
      processTransferNft pid (nftAccount :: currentOwner :: newOwnerAccount :: tail) newOwner
        = .error .InvalidAccountData) ∧
    (∀ (mintInfo rentInfo : AccountInfo) (tail : List AccountInfo) (decimals : Byte)
        (mintAuthority pid : Pubkey) (rent : Rent) (m : Mint) (rm : List Byte),
      mintInfo.owner = pid →
      rent.isExempt mintInfo.lamports mintInfo.data.length = false →
      mintInfo.data = m.encodeBytes ++ rm → rm.length = 14 → m.supply < 2 ^ 64 →
      m.isInitialized = true →
      processInitializeMint (mintInfo :: rentInfo :: tail) decimals mintAuthority rent pid
        = .error .AccountNotRentExempt) ∧
    (∀ (pid : Pubkey) (nftAccount ownerAccount : AccountInfo) (tail : List AccountInfo)
        (m : NFTMetadata) (name symbol uri : Option (List Byte)),
      nftAccount.owner = pid → nftAccount.data = m.borshEncode →
      m.name.length < 2 ^ 32 → m.symbol.length < 2 ^ 32 → m.uri.length < 2 ^ 32 →
      m.isMutable = false → ownerAccount.isSigner = false →
      processUpdateMetadata pid (nftAccount :: ownerAccount :: tail) name symbol uri
        = .error .InvalidArgument) := by
  refine ⟨?_, ?_, ?_⟩
  · intro pid nftAccount currentOwner newOwnerAccount tail m newOwner h1 h2 h3 h4 h5 h6 _
    exact processTransferNft_wrongOwner pid nftAccount currentOwner newOwnerAccount tail m
      newOwner h1 h2 h3 h4 h5 h6
  · intro mintInfo rentInfo tail decimals mintAuthority pid rent m rm h1 h2 _ _ _ _
    exact processInitializeMint_rent mintInfo rentInfo tail decimals mintAuthority pid rent h1 h2
  · intro pid nftAccount ownerAccount tail m name symbol uri h1 h2 h3 h4 h5 h6 _
    exact processUpdateMetadata_immutable pid nftAccount ownerAccount tail m name symbol uri
      h1 h2 h3 h4 h5 h6

theorem c3_check_order_witness :
    processTransferNft pk0 [⟨pk0, pk0, false, 0, nft0.borshEncode⟩, ⟨pkA, pk0, false, 0, []⟩,
        ⟨pkA, pk0, false, 0, []⟩] pkA = .error .InvalidAccountData ∧
    processInitializeMint [⟨pk0, pk0, false, 3, mintA.toData⟩, ⟨pk0, pk0, false, 0, []⟩]
        4 pkB rentLow pk0 = .error .AccountNotRentExempt ∧
    processUpdateMetadata pk0 [⟨pk0, pk0, false, 0, nftImm.borshEncode⟩,
        ⟨pkA, pk0, false, 0, []⟩] none none none = .error .InvalidArgument :=
  ⟨c3_check_order.1 pk0 _ _ _ [] nft0 pkA rfl rfl (by norm_num [nft0]) (by norm_num [nft0])
      (by norm_num [nft0]) (by decide) rfl,
   c3_check_order.2.1 _ _ [] 4 pkB pk0 rentLow mintA (List.replicate 14 0) rfl rfl rfl
      (by simp) (by norm_num [mintA]) rfl,
   c3_check_order.2.2 pk0 _ _ [] nftImm none none none rfl rfl (by norm_num [nftImm])
      (by norm_num [nftImm]) (by norm_num [nftImm]) rfl rfl⟩

/-- C4 counterexample: CreateNFT on a slot that already holds a record does
not fail — `process_create_nft` never inspects the stored bytes — it
overwrites the existing record (here changing the royalty from 10 to 20). -/
theorem c4_counterexample :
    processCreateNft pk0 [⟨pk0, pk0, false, 0, nft0.borshEncode⟩, ⟨pkC, pk0, true, 0, []⟩,
        ⟨pk0, pk0, false, 0, []⟩] [] [] [] 20 true rentOk
      = .ok ((NFTMetadata.mk [] [] [] pkC 20 true).borshEncode) ∧
    (NFTMetadata.mk [] [] [] pkC 20 true).borshEncode ≠ nft0.borshEncode := by
  constructor
  · decide
  · decide

/-- C4 (amended): InitializeMint is one-shot — on an already-initialized
slot it fails with `AccountAlreadyInitialized` (committing nothing), and on
success it writes exactly `{initialized := true, mint_authority, supply :=
0, decimals}` — but CreateNFT performs no already-holding check: with the
other checks passing it succeeds on a slot already holding a record and
overwrites it. -/
theorem c4_one_shot :
    (∀ (mintInfo rentInfo : AccountInfo) (tail : List AccountInfo) (decimals : Byte)
        (mintAuthority pid : Pubkey) (rent : Rent) (m : Mint) (rm : List Byte),
      mintInfo.owner = pid →
      rent.isExempt mintInfo.lamports mintInfo.data.length = true →
      mintInfo.data = m.encodeBytes ++ rm → rm.length = 14 → m.supply < 2 ^ 64 →
      m.isInitialized = true →
      processInitializeMint (mintInfo :: rentInfo :: tail) decimals mintAuthority rent pid
        = .error .AccountAlreadyInitialized) ∧
    (∀ (mintInfo rentInfo : AccountInfo) (tail : List AccountInfo) (decimals : Byte)
        (mintAuthority pid : Pubkey) (rent : Rent) (m : Mint) (rm : List Byte),
      mintInfo.owner = pid →
      rent.isExempt mintInfo.lamports mintInfo.data.length = true →
      mintInfo.data = m.encodeBytes ++ rm → rm.length = 14 → m.supply < 2 ^ 64 →
      m.isInitialized = false →
      processInitializeMint (mintInfo :: rentInfo :: tail) decimals mintAuthority rent pid
        = .ok ((Mint.mk true mintAuthority 0 decimals).encodeBytes ++ rm)) ∧
    (∀ (pid : Pubkey) (nftAccount creatorAccount rentAccount : AccountInfo)
        (tail : List AccountInfo) (mOld : NFTMetadata) (name symbol uri : List Byte)
        (royaltyPercentage : Byte) (isMutable : Bool) (rent : Rent),
      nftAccount.owner = pid → nftAccount.data = mOld.borshEncode →
      creatorAccount.isSigner = true →
      rent.isExempt nftAccount.lamports nftAccount.data.length = true →
      royaltyPercentage.val ≤ 100 →
      name.length + symbol.length + uri.length
        ≤ mOld.name.length + mOld.symbol.length + mOld.uri.length →
      processCreateNft pid (nftAccount :: creatorAccount :: rentAccount :: tail)
          name symbol uri royaltyPercentage isMutable rent
        = .ok ((NFTMetadata.mk name symbol uri creatorAccount.key royaltyPercentage
              isMutable).borshEncode ++
            nftAccount.data.drop (name.length + symbol.length + uri.length + 46))) := by
  refine ⟨?_, ?_, ?_⟩
  · intro mintInfo rentInfo tail decimals mintAuthority pid rent m rm h1 h2 h3 h4 h5 h6
    exact processInitializeMint_already mintInfo rentInfo tail decimals mintAuthority pid rent
      m rm h1 h2 h3 h4 h5 h6
  · intro mintInfo rentInfo tail decimals mintAuthority pid rent m rm h1 h2 h3 h4 h5 h6
    exact processInitializeMint_success mintInfo rentInfo tail decimals mintAuthority pid rent
      m rm h1 h2 h3 h4 h5 h6
  · intro pid nftAccount creatorAccount rentAccount tail mOld name symbol uri roy mutFlag rent
      h1 h2 h3 h4 h5 h6
    exact processCreateNft_success pid nftAccount creatorAccount rentAccount tail
      name symbol uri roy mutFlag rent h1 h3 h4 h5 (by rw [h2, borshEncode_length]; omega)

theorem c4_one_shot_witness :
    processInitializeMint [⟨pk0, pk0, false, 9, mintA.toData⟩, ⟨pk0, pk0, false, 0, []⟩]
        6 pkB rentOk pk0 = .error .AccountAlreadyInitialized ∧
    processInitializeMint [⟨pk0, pk0, false, 9, (Mint.mk false pkA 0 0).toData⟩,
        ⟨pk0, pk0, false, 0, []⟩] 6 pkB rentOk pk0
      = .ok ((Mint.mk true pkB 0 6).encodeBytes ++ List.replicate 14 0) ∧
    processCreateNft pk0 [⟨pk0, pk0, false, 0, nft0.borshEncode⟩, ⟨pkB, pk0, true, 0, []⟩,
        ⟨pk0, pk0, false, 0, []⟩] [] [] [] 7 false rentOk
      = .ok ((NFTMetadata.mk [] [] [] pkB 7 false).borshEncode ++
          (nft0.borshEncode).drop (0 + 0 + 0 + 46)) :=
  ⟨c4_one_shot.1 _ _ [] 6 pkB pk0 rentOk mintA (List.replicate 14 0) rfl rfl rfl (by simp)
      (by norm_num [mintA]) rfl,
   c4_one_shot.2.1 _ _ [] 6 pkB pk0 rentOk (Mint.mk false pkA 0 0) (List.replicate 14 0)
      rfl rfl rfl (by simp) (by norm_num) rfl,
   c4_one_shot.2.2 pk0 _ _ _ [] nft0 [] [] [] 7 false rentOk rfl rfl rfl rfl (by decide)
      (by norm_num)⟩

/-- C5 counterexample: a Transfer satisfying the claim's premises (source
initialized, owner matches, `amount ≤ source.amount`) does not succeed when
the destination balance would overflow u64: it fails with
`InvalidArgument`. -/
theorem c5_counterexample :
    processTransfer [⟨pk0, pk0, true, 0, acctA.toData⟩, ⟨pk0, pk0, true, 0, acctMax.toData⟩,
        ⟨pkA, pk0, true, 0, []⟩] 1 pk0 = .error .InvalidArgument :=
  processTransfer_overflow pk0 _ _ _ [] acctA acctMax (List.replicate 7 0)
    (List.replicate 7 0) 1 rfl rfl rfl (by simp) rfl (by norm_num [acctA]) rfl rfl (by simp)
    rfl (by norm_num [acctMax]) (by norm_num [acctA]) (by norm_num [acctMax])

/-- C5 (amended): on program-owned slots holding an initialized source and
an initialized destination, with the presented authority key equal to
`source.owner`: `amount > source.amount` fails with `InsufficientFunds`
(nothing committed); otherwise, provided `destination.amount + amount`
fits in u64, the transfer commits exactly `source.amount - amount` and
`destination.amount + amount` with every other byte of both records
unchanged; when the destination sum does not fit, it fails with
`InvalidArgument` (nothing committed). -/
theorem c5_transfer_exact (pid : Pubkey) (srcInfo dstInfo authInfo : AccountInfo)
    (tail : List AccountInfo) (a b : TokenAccount) (r1 r2 : List Byte) (amount : Nat)
    (hso : srcInfo.owner = pid) (hdo : dstInfo.owner = pid)
    (hsd : srcInfo.data = a.encodeBytes ++ r1) (hr1 : r1.length = 7)
    (hai : a.isInitialized = true) (haa : a.amount < 2 ^ 64)
    (hkey : authInfo.key = a.owner)
    (hdd : dstInfo.data = b.encodeBytes ++ r2) (hr2 : r2.length = 7)
    (hbi : b.isInitialized = true) (hba : b.amount < 2 ^ 64) :
    (a.amount < amount →
      processTransfer (srcInfo :: dstInfo :: authInfo :: tail) amount pid =
        .error .InsufficientFunds) ∧
    (amount ≤ a.amount → b.amount + amount < 2 ^ 64 →
      processTransfer (srcInfo :: dstInfo :: authInfo :: tail) amount pid =
        .ok (({ a with amount := a.amount - amount }).encodeBytes ++ r1,
             ({ b with amount := b.amount + amount }).encodeBytes ++ r2)) ∧
    (amount ≤ a.amount → 2 ^ 64 ≤ b.amount + amount →
      processTransfer (srcInfo :: dstInfo :: authInfo :: tail) amount pid =
        .error .InvalidArgument) :=
  ⟨fun hgt => processTransfer_insufficient pid srcInfo dstInfo authInfo tail a b r1 r2 amount
      hso hdo hsd hr1 hai haa hkey hdd hr2 hbi hba hgt,
   fun hle hov => processTransfer_ok pid srcInfo dstInfo authInfo tail a b r1 r2 amount
      hso hdo hsd hr1 hai haa hkey hdd hr2 hbi hba hle hov,
   fun hle hov => processTransfer_overflow pid srcInfo dstInfo authInfo tail a b r1 r2 amount
      hso hdo hsd hr1 hai haa hkey hdd hr2 hbi hba hle hov⟩

theorem c5_transfer_exact_witness :
    processTransfer [⟨pk0, pk0, true, 0, acctA.toData⟩, ⟨pk0, pk0, true, 0, acctB.toData⟩,
        ⟨pkA, pk0, true, 0, []⟩] 501 pk0 = .error .InsufficientFunds ∧
    processTransfer [⟨pk0, pk0, true, 0, acctA.toData⟩, ⟨pk0, pk0, true, 0, acctB.toData⟩,
        ⟨pkA, pk0, true, 0, []⟩] 200 pk0 =
      .ok (({ acctA with amount := 300 }).encodeBytes ++ List.replicate 7 0,
           ({ acctB with amount := 300 }).encodeBytes ++ List.replicate 7 0) :=
  ⟨(c5_transfer_exact pk0 _ _ _ [] acctA acctB (List.replicate 7 0) (List.replicate 7 0) 501
      rfl rfl rfl (by simp) rfl (by norm_num [acctA]) rfl rfl (by simp) rfl
      (by norm_num [acctB])).1 (by norm_num [acctA]),
   (c5_transfer_exact pk0 _ _ _ [] acctA acctB (List.replicate 7 0) (List.replicate 7 0) 200
      rfl rfl rfl (by simp) rfl (by norm_num [acctA]) rfl rfl (by simp) rfl
      (by norm_num [acctB])).2.1 (by norm_num [acctA]) (by norm_num [acctB])⟩

/-- A mint with a supply smaller than a holder's balance, for the Burn
underflow scenario. -/
def mintLow : Mint := ⟨true, pkA, 100, 2⟩

/-- C6: checked arithmetic is atomic.  In MintTo, if either
`mint.supply + amount` or `destination.amount + amount` does not fit in
u64, the call fails with `InvalidArgument` and commits neither record; in
Burn, if `amount > mint.supply` while `amount ≤ source.amount`, the checked
supply subtraction fails with `InvalidArgument` and commits neither
record.  (In this embedding an error result is exactly an invocation
committing nothing.) -/
theorem c6_checked_arithmetic :
    (∀ (pid : Pubkey) (mintInfo destInfo authInfo : AccountInfo) (tail : List AccountInfo)
        (m : Mint) (d : TokenAccount) (rm rd : List Byte) (amount : Nat),
      mintInfo.owner = pid → destInfo.owner = pid →
      mintInfo.data = m.encodeBytes ++ rm → rm.length = 14 →
      m.isInitialized = true → m.supply < 2 ^ 64 →
      authInfo.key = m.mintAuthority →
      destInfo.data = d.encodeBytes ++ rd → rd.length = 7 →
      d.isInitialized = true → d.amount < 2 ^ 64 →
      (2 ^ 64 ≤ m.supply + amount ∨ 2 ^ 64 ≤ d.amount + amount) →
      processMintTo (mintInfo :: destInfo :: authInfo :: tail) amount pid =
        .error .InvalidArgument) ∧
    (∀ (pid : Pubkey) (srcInfo mintInfo authInfo : AccountInfo) (tail : List AccountInfo)
        (a : TokenAccount) (m : Mint) (r1 rm : List Byte) (amount : Nat),
      srcInfo.owner = pid → mintInfo.owner = pid →
      srcInfo.data = a.encodeBytes ++ r1 → r1.length = 7 →
      a.isInitialized = true → a.amount < 2 ^ 64 →
      authInfo.key = a.owner →
      mintInfo.data = m.encodeBytes ++ rm → rm.length = 14 →
      m.isInitialized = true → m.supply < 2 ^ 64 →
      amount ≤ a.amount → m.supply < amount →
      processBurn (srcInfo :: mintInfo :: authInfo :: tail) amount pid =
        .error .InvalidArgument) := by
  constructor
  · intro pid mintInfo destInfo authInfo tail m d rm rd amount
      h1 h2 h3 h4 h5 h6 h7 h8 h9 h10 h11 h12
    exact processMintTo_overflow pid mintInfo destInfo authInfo tail m d rm rd amount
      h1 h2 h3 h4 h5 h6 h7 h8 h9 h10 h11 h12
  · intro pid srcInfo mintInfo authInfo tail a m r1 rm amount
      h1 h2 h3 h4 h5 h6 h7 h8 h9 h10 h11 h12 h13
    exact processBurn_underflow pid srcInfo mintInfo authInfo tail a m r1 rm amount
      h1 h2 h3 h4 h5 h6 h7 h8 h9 h10 h11 h12 h13

theorem c6_checked_arithmetic_witness :
    processMintTo [⟨pk0, pk0, true, 0, mintA.toData⟩, ⟨pk0, pk0, true, 0, acctMax.toData⟩,
        ⟨pkA, pk0, true, 0, []⟩] 600 pk0 = .error .InvalidArgument ∧
    processBurn [⟨pk0, pk0, true, 0, acctA.toData⟩, ⟨pk0, pk0, true, 0, mintLow.toData⟩,
        ⟨pkA, pk0, true, 0, []⟩] 200 pk0 = .error .InvalidArgument :=
  ⟨c6_checked_arithmetic.1 pk0 _ _ _ [] mintA acctMax (List.replicate 14 0)
      (List.replicate 7 0) 600 rfl rfl rfl (by simp) rfl (by norm_num [mintA]) rfl rfl
      (by simp) rfl (by norm_num [acctMax]) (by norm_num [acctMax, mintA]),
   c6_checked_arithmetic.2 pk0 _ _ _ [] acctA mintLow (List.replicate 7 0)
      (List.replicate 14 0) 200 rfl rfl rfl (by simp) rfl (by norm_num [acctA]) rfl rfl
      (by simp) rfl (by norm_num [mintLow]) (by norm_num [acctA]) (by norm_num [mintLow])⟩

/-- C7 counterexample: a buffer of exactly the claimed width (41 bytes for
`TokenAccount`, 42 for `Mint`) is rejected by the codec's length guard with
`InvalidAccountData` — the guard compares against
`LEN = size_of::<T>() = 48` (resp. 56), which includes the `repr(C)`
padding, not 41 (resp. 42). -/
theorem c7_counterexample :
    TokenAccount.unpackUnchecked (List.replicate 41 0) = .error .InvalidAccountData ∧
    Mint.unpackUnchecked (List.replicate 42 0) = .error .InvalidAccountData := by
  constructor
  · rw [TokenAccount.unpackUnchecked, dif_neg (by simp [TokenAccount.LEN])]
  · rw [Mint.unpackUnchecked, dif_neg (by simp [Mint.LEN])]

/-- C7 (amended): `pack` writes exactly bytes 0..41 (flag at 0, owner at
1..33, little-endian amount at 33..41; for `Mint` additionally the decimals
byte at 41, so bytes 0..42) and leaves the tail of the slice unchanged, but
the codec's required buffer width is `LEN = size_of::<T>()` — 48 bytes for
`TokenAccount` and 56 for `Mint` because of `repr(C)` padding.  `unpack` on
a buffer of any other length (shorter or longer, including the claimed 41
and 42) fails with the `InvalidAccountData` decoding error rather than
panicking, and a buffer of exactly `LEN` bytes is accepted. -/
theorem c7_codec_width :
    TokenAccount.LEN = 48 ∧ Mint.LEN = 56 ∧
    (∀ src : List Byte, src.length ≠ TokenAccount.LEN →
      TokenAccount.unpackUnchecked src = .error .InvalidAccountData) ∧
    (∀ src : List Byte, src.length = TokenAccount.LEN →
      (TokenAccount.unpackUnchecked src).isOk = true) ∧
    (∀ src : List Byte, src.length ≠ Mint.LEN →
      Mint.unpackUnchecked src = .error .InvalidAccountData) ∧
    (∀ src : List Byte, src.length = Mint.LEN → (Mint.unpackUnchecked src).isOk = true) ∧
    (∀ a : TokenAccount, a.encodeBytes.length = 41) ∧
    (∀ m : Mint, m.encodeBytes.length = 42) ∧
    (∀ (a : TokenAccount) (dst : List Byte), dst.length = TokenAccount.LEN →
      TokenAccount.pack a dst = .ok (a.encodeBytes ++ dst.drop 41)) ∧
    (∀ (m : Mint) (dst : List Byte), dst.length = Mint.LEN →
      Mint.pack m dst = .ok (m.encodeBytes ++ dst.drop 42)) := by
  refine ⟨rfl, rfl, ?_, ?_, ?_, ?_, ?_, ?_, ?_, ?_⟩
  · intro src h
    rw [TokenAccount.unpackUnchecked, dif_neg h]
  · intro src h
    rw [TokenAccount.unpackUnchecked, dif_pos h]
    rfl
  · intro src h
    rw [Mint.unpackUnchecked, dif_neg h]
  · intro src h
    rw [Mint.unpackUnchecked, dif_pos h]
    rfl
  · exact TokenAccount.encode_length41
  · exact Mint.encode_length42
  · intro a dst h
    rw [TokenAccount.pack, if_pos h]
  · intro m dst h
    rw [Mint.pack, if_pos h]

theorem c7_codec_width_witness :
    TokenAccount.unpackUnchecked (List.replicate 41 1) = .error .InvalidAccountData ∧
    (TokenAccount.unpackUnchecked (List.replicate 48 1)).isOk = true ∧
    Mint.unpackUnchecked (List.replicate 42 1) = .error .InvalidAccountData ∧
    (Mint.unpackUnchecked (List.replicate 56 1)).isOk = true ∧
    acctA.encodeBytes.length = 41 ∧ mintA.encodeBytes.length = 42 ∧
    TokenAccount.pack acctA (List.replicate 48 1) =
      .ok (acctA.encodeBytes ++ (List.replicate 48 (1 : Byte)).drop 41) ∧
    Mint.pack mintA (List.replicate 56 1) =
      .ok (mintA.encodeBytes ++ (List.replicate 56 (1 : Byte)).drop 42) :=
  ⟨c7_codec_width.2.2.1 _ (by simp [TokenAccount.LEN]),
   c7_codec_width.2.2.2.1 _ (by simp [TokenAccount.LEN]),
   c7_codec_width.2.2.2.2.1 _ (by simp [Mint.LEN]),
   c7_codec_width.2.2.2.2.2.1 _ (by simp [Mint.LEN]),
   c7_codec_width.2.2.2.2.2.2.1 acctA,
   c7_codec_width.2.2.2.2.2.2.2.1 mintA,
   c7_codec_width.2.2.2.2.2.2.2.2.1 acctA _ (by simp [TokenAccount.LEN]),
   c7_codec_width.2.2.2.2.2.2.2.2.2 mintA _ (by simp [Mint.LEN])⟩

/-- C8: round-trip.  For every record with an in-range u64 field, packing
into a buffer of the required width and unpacking yields the record back
(both for `TokenAccount` and for `Mint`; `unpack_unchecked` is the codec
level — per spec §4.1 unpack performs no semantic validation). -/
theorem c8_round_trip :
    (∀ a : TokenAccount, a.amount < 2 ^ 64 → ∀ dst : List Byte,
      dst.length = TokenAccount.LEN →
      (TokenAccount.pack a dst).bind TokenAccount.unpackUnchecked = .ok a) ∧
    (∀ m : Mint, m.supply < 2 ^ 64 → ∀ dst : List Byte, dst.length = Mint.LEN →
      (Mint.pack m dst).bind Mint.unpackUnchecked = .ok m) := by
  constructor
  · intro a ha dst h
    rw [TokenAccount.pack, if_pos h]
    simp only [Except.bind]
    exact tokenAccount_unpackUnchecked_encode a (dst.drop 41)
      ha (by simp [h, TokenAccount.LEN])
  · intro m hm dst h
    rw [Mint.pack, if_pos h]
    simp only [Except.bind]
    exact mint_unpackUnchecked_encode m (dst.drop 42) hm (by simp [h, Mint.LEN])

theorem c8_round_trip_witness :
    (TokenAccount.pack acctB (List.replicate 48 7)).bind TokenAccount.unpackUnchecked
      = .ok acctB ∧
    (Mint.pack mintA (List.replicate 56 7)).bind Mint.unpackUnchecked = .ok mintA :=
  ⟨c8_round_trip.1 acctB (by norm_num [acctB]) _ (by simp [TokenAccount.LEN]),
   c8_round_trip.2 mintA (by norm_num [mintA]) _ (by simp [Mint.LEN])⟩

/-- C9 counterexample: a successful TransferNFT that satisfies every
premise of the claim with `new_owner` equal to the original creator
(transfer to self).  Afterwards UpdateMetadata signed by the original
creator succeeds — it does not fail with `InvalidAccountData` as the claim
asserts of every successful transfer. -/
theorem c9_counterexample :
    processTransferNft pk0 [⟨pk0, pk0, false, 0, nft0.borshEncode⟩, ⟨pkC, pk0, true, 0, []⟩,
        ⟨pkC, pk0, false, 0, []⟩] pkC = .ok nft0.borshEncode ∧
    (processUpdateMetadata pk0 [⟨pk0, pk0, false, 0, nft0.borshEncode⟩,
        ⟨pkC, pk0, true, 0, []⟩] none none none).isOk = true := by
  constructor
  · decide
  · decide

/-- C9 (amended): a successful TransferNFT overwrites only the `creator`
field, leaving name, symbol, uri, royalty and mutability byte-for-byte
unchanged; consequently, provided the record is mutable and the new owner
differs from the original creator, a subsequent UpdateMetadata signed by
the original creator fails with `InvalidAccountData`. -/
theorem c9_transfer_frame (pid : Pubkey)
    (nftAccount currentOwner newOwnerAccount : AccountInfo) (tail : List AccountInfo)
    (m : NFTMetadata) (newOwner : Pubkey)
    (hno : nftAccount.owner = pid)
    (hdata : nftAccount.data = m.borshEncode)
    (hn : m.name.length < 2 ^ 32) (hs : m.symbol.length < 2 ^ 32) (hu : m.uri.length < 2 ^ 32)
    (hcr : m.creator = currentOwner.key)
    (hsig : currentOwner.isSigner = true)
    (hnw : newOwner = newOwnerAccount.key) :
    processTransferNft pid (nftAccount :: currentOwner :: newOwnerAccount :: tail) newOwner
      = .ok (({ m with creator := newOwner }).borshEncode) ∧
    (m.isMutable = true → newOwner ≠ m.creator →
      ∀ (ownerAccount : AccountInfo) (tail2 : List AccountInfo)
        (name symbol uri : Option (List Byte)),
        ownerAccount.key = m.creator →
        processUpdateMetadata pid
            (({ nftAccount with data := ({ m with creator := newOwner }).borshEncode }) ::
              ownerAccount :: tail2) name symbol uri
          = .error .InvalidAccountData) := by
  constructor
  · exact processTransferNft_success pid nftAccount currentOwner newOwnerAccount tail m
      newOwner hno hdata hn hs hu hcr hsig hnw
  · intro hmut hne ownerAccount tail2 name symbol uri hok
    exact processUpdateMetadata_wrongOwner pid _ ownerAccount tail2
      { m with creator := newOwner } name symbol uri hno rfl hn hs hu hmut
      (by simpa [hok] using hne)

theorem c9_transfer_frame_witness :
    processTransferNft pk0 [⟨pk0, pk0, false, 0, nft0.borshEncode⟩, ⟨pkC, pk0, true, 0, []⟩,
        ⟨pkB, pk0, false, 0, []⟩] pkB = .ok (({ nft0 with creator := pkB }).borshEncode) ∧
    processUpdateMetadata pk0 [⟨pk0, pk0, false, 0, ({ nft0 with creator := pkB }).borshEncode⟩,
        ⟨pkC, pk0, true, 0, []⟩] none none none = .error .InvalidAccountData := by
  have h := c9_transfer_frame pk0 ⟨pk0, pk0, false, 0, nft0.borshEncode⟩
    ⟨pkC, pk0, true, 0, []⟩ ⟨pkB, pk0, false, 0, []⟩ [] nft0 pkB rfl rfl
    (by norm_num [nft0]) (by norm_num [nft0]) (by norm_num [nft0]) rfl rfl rfl
  exact ⟨h.1, h.2 rfl (by decide) ⟨pkC, pk0, true, 0, []⟩ [] none none none rfl⟩

/-- C10: a `TokenAccount` record stores only the initialized flag, the
owner identity and the amount — no reference to any mint — and
`process_burn` validates no association between the source account and the
supplied mint.  Hence Burn succeeds against an arbitrary initialized,
program-owned mint record `m` (quantified freely here) whenever the source
is initialized, the authority key equals `source.owner`,
`amount ≤ source.amount` and `amount ≤ m.supply`, debiting that mint's
supply. -/
theorem c10_burn_any_mint (pid : Pubkey) (srcInfo mintInfo authInfo : AccountInfo)
    (tail : List AccountInfo) (a : TokenAccount) (m : Mint) (r1 rm : List Byte) (amount : Nat)
    (hso : srcInfo.owner = pid) (hmo : mintInfo.owner = pid)
    (hsd : srcInfo.data = a.encodeBytes ++ r1) (hr1 : r1.length = 7)
    (hai : a.isInitialized = true) (haa : a.amount < 2 ^ 64)
    (hkey : authInfo.key = a.owner)
    (hmd : mintInfo.data = m.encodeBytes ++ rm) (hrm : rm.length = 14)
    (hmi : m.isInitialized = true) (hms : m.supply < 2 ^ 64)
    (hle : amount ≤ a.amount) (hles : amount ≤ m.supply) :
    processBurn (srcInfo :: mintInfo :: authInfo :: tail) amount pid =
      .ok (({ a with amount := a.amount - amount }).encodeBytes ++ r1,
           ({ m with supply := m.supply - amount }).encodeBytes ++ rm) :=
  processBurn_ok pid srcInfo mintInfo authInfo tail a m r1 rm amount
    hso hmo hsd hr1 hai haa hkey hmd hrm hmi hms hle hles

/-- An unrelated mint (different authority, arbitrary supply) for the C10
scenario. -/
def mintOther : Mint := ⟨true, pkB, 777, 9⟩

theorem c10_burn_any_mint_witness :
    processBurn [⟨pk0, pk0, true, 0, acctA.toData⟩, ⟨pk0, pk0, true, 0, mintOther.toData⟩,
        ⟨pkA, pk0, true, 0, []⟩] 5 pk0 =
      .ok (({ acctA with amount := 495 }).encodeBytes ++ List.replicate 7 0,
           ({ mintOther with supply := 772 }).encodeBytes ++ List.replicate 14 0) :=
  c10_burn_any_mint pk0 _ _ _ [] acctA mintOther (List.replicate 7 0) (List.replicate 14 0) 5
    rfl rfl rfl (by simp) rfl (by norm_num [acctA]) rfl rfl (by simp) rfl
    (by norm_num [mintOther]) (by norm_num [acctA]) (by norm_num [mintOther])
